import Mathlib

/-!
Verification development for the e-paper image loader firmware
(`src/main.cpp`).  The definitions below are a shallow embedding of the
image pipeline: the framebuffer (`Paint`), the buffered truecolor bitmap
decoder (`bmpDraw` and its helpers), the generic compressed-image codec
callback (`PNGDraw`), the codec dispatch of `display_image`, and the
snapshot encoder (`snapshot`).

Modelling conventions:
* files are lists of bytes; a read past the end of the file yields 0
  (the C code reads into a fixed buffer via `File::read`, which near EOF
  performs a short read; every byte actually consumed by the claims
  below lies inside the file, so the padding value is never observable);
* machine integers are `Nat`/`Int` with explicit `% 2^32` where the C
  code converts `int` to `uint32_t`;
* `paint.DrawPixel` calls are recorded as a write trace
  `(x, y, colour)` in call order; the resulting framebuffer is the
  in-order application of exactly those calls (`applyWrites`), which is
  the only way the decode loops mutate the framebuffer in the source.
-/

/-- Colour constant BLACK (main.cpp line 125). -/
def BLACK : Nat := 0

/-- Colour constant WHITE (main.cpp line 126). -/
def WHITE : Nat := 1

/-- Number of pixels buffered per read chunk (main.cpp line 747). -/
def BUFFPIXEL : Nat := 20

/-- Byte at position `i` of a file; 0 beyond EOF.  The `% 256` records
that file contents are bytes. -/
def byteAt (f : List Nat) (i : Nat) : Nat := f.getD i 0 % 256

/-- Little-endian 16-bit read at byte position `p` (main.cpp `read16`;
the ESP target is little-endian, so platform order is little-endian). -/
def read16at (f : List Nat) (p : Nat) : Nat :=
  byteAt f p + 256 * byteAt f (p + 1)

/-- Little-endian 32-bit read at byte position `p` (main.cpp `read32`). -/
def read32at (f : List Nat) (p : Nat) : Nat :=
  byteAt f p + 256 * byteAt f (p + 1) + 65536 * byteAt f (p + 2) +
    16777216 * byteAt f (p + 3)

/-- Reinterpret a 32-bit unsigned value as a signed `int32` (the C code
stores `read32` results into `int` variables `bmpWidth`, `bmpHeight`). -/
def toInt32 (n : Nat) : Int :=
  if n < 2147483648 then (n : Int) else (n : Int) - 4294967296

/-- Modelled from the spec (§3, §4.1): the `Paint` framebuffer of the
`epd/epdpaint` component, which is part of the repository but not under
`src/`.  It owns a packed 1-bit-per-pixel buffer: `width`, `height` and
the backing byte list `image`; BLACK(0) and WHITE(1) are encoded as one
bit per pixel (bit set = WHITE), row-major, MSB-first. -/
structure Paint where
  width : Nat
  height : Nat
  image : List Nat

/-- Modelled from the spec (§4.1 `set_pixel`): bounds-checked pixel
write; out-of-range coordinates are a silent no-op.  The byte/mask
addressing `image[(x + y*width)/8]`, mask `0x80 >> (x % 8)` is the
spec's row-major MSB-first packing (exactly so whenever `width` is a
multiple of 8, as on the 200-wide panel) and is the same addressing the
in-source snapshot encoder uses to read the buffer (main.cpp line
1205). A nonzero colour (WHITE = 1) sets the bit, BLACK(0) clears it,
per the spec's "exactly one bit encoding per pixel". -/
def Paint.DrawPixel (p : Paint) (x y : Int) (colored : Nat) : Paint :=
  if 0 ≤ x ∧ x < (p.width : Int) ∧ 0 ≤ y ∧ y < (p.height : Int) then
    let k := x.toNat + y.toNat * p.width
    let mask := 0x80 >>> (x.toNat % 8)
    let b := p.image.getD (k / 8) 0
    let b2 := if colored ≠ 0 then b ||| mask else b &&& (0xFF ^^^ mask)
    { p with image := p.image.set (k / 8) b2 }
  else p

/-- Modelled from the spec (§4.1 `clear(color)`): sets every bit of the
backing buffer to the given colour. -/
def Paint.Clear (p : Paint) (colored : Nat) : Paint :=
  { p with image := p.image.map (fun _ => if colored ≠ 0 then 0xFF else 0x00) }

/-- Observation function for theorem statements: the packed bit of pixel
`(x, y)`, read exactly the way the snapshot encoder reads the buffer
(main.cpp line 1205, with `x` the column and `y` the row). -/
def Paint.pixelSet (p : Paint) (x y : Nat) : Prop :=
  (p.image.getD ((x + y * p.width) / 8) 0) &&& (0x80 >>> (x % 8)) ≠ 0

instance (p : Paint) (x y : Nat) : Decidable (p.pixelSet x y) := by
  unfold Paint.pixelSet
  infer_instance

/-- A recorded `paint.DrawPixel` call: (x, y, colour). -/
abbrev Write := Nat × Nat × Nat

/-- Apply a trace of `DrawPixel` calls to a framebuffer, in order. -/
def applyWrites (p : Paint) : List Write → Paint
  | [] => p
  | (x, y, c) :: rest => applyWrites (p.DrawPixel (x : Int) (y : Int) c) rest

/-- The pixel value the bitmap decoder stores into `lcdbuffer`
(main.cpp line 903): `(r << 24) | (g << 8) || b`.  The C `||` makes the
whole expression a boolean: 1 exactly when `(r << 24) | (g << 8)` or `b`
is nonzero.  (In C the shifts are `int` arithmetic; for byte inputs the
zero-ness modelled here agrees with the 32-bit result.) -/
def bmpPixelValue (r g b : Nat) : Nat :=
  if (r <<< 24 ||| g <<< 8) ≠ 0 ∨ b ≠ 0 then 1 else 0

/-- Model of `pushColours` (main.cpp lines 736-745): emits one
`DrawPixel(row, col + idx, lcdbuffer[idx] != 0 ? WHITE : BLACK)` call
per buffered pixel, in index order. -/
def pushColours (row col : Nat) : List Nat → List Write
  | [] => []
  | v :: rest => (row, col, if v ≠ 0 then WHITE else BLACK) :: pushColours row (col + 1) rest

/-- File-reading state of `bmpDraw`: the file position, the 60-byte
`sdbuffer` contents and the index `buffidx` into it. -/
structure RdState where
  filePos : Nat
  buf : List Nat
  buffidx : Nat

/-- The 60 bytes (`3*BUFFPIXEL`) that `bmpFile.read(sdbuffer, 60)`
places in the buffer when the file position is `pos`. -/
def chunkAt (f : List Nat) (pos : Nat) : List Nat :=
  (List.range 60).map (fun i => byteAt f (pos + i))

/-- Read the three bytes of one pixel (blue, green, red, main.cpp lines
900-903) from the current buffer and append the converted value to the
pending `lcdbuffer`. -/
def pixelRead (st : RdState) (lcd : List Nat) (ws : List Write) :
    RdState × List Nat × List Write :=
  let b := st.buf.getD st.buffidx 0
  let g := st.buf.getD (st.buffidx + 1) 0
  let r := st.buf.getD (st.buffidx + 2) 0
  (⟨st.filePos, st.buf, st.buffidx + 3⟩, lcd ++ [bmpPixelValue r g b], ws)

/-- One column iteration of the decoder (main.cpp lines 885-904): if the
buffer is exhausted, flush the pending pixels through `pushColours` and
reload 60 bytes from the current file position, then read one pixel. -/
def colStep (f : List Nat) (row c : Nat) (st : RdState) (lcd : List Nat)
    (ws : List Write) : RdState × List Nat × List Write :=
  if 60 ≤ st.buffidx then
    pixelRead ⟨min (st.filePos + 60) f.length, chunkAt f st.filePos, 0⟩ []
      (ws ++ pushColours row (c - lcd.length) lcd)
  else
    pixelRead st lcd ws

/-- The column loop `for (col=0; col<w; col++)`, processing `n` more
columns starting at column `c`. -/
def colLoop (f : List Nat) (row : Nat) : Nat → Nat → RdState → List Nat →
    List Write → RdState × List Nat × List Write
  | _, 0, st, lcd, ws => (st, lcd, ws)
  | c, n + 1, st, lcd, ws =>
    let s := colStep f row c st lcd ws
    colLoop f row (c + 1) n s.1 s.2.1 s.2.2

/-- Row size padded to a 4-byte boundary, `(bmpWidth*3 + 3) & ~3`
(main.cpp line 851); the `int` result is stored into the `uint32_t`
variable `rowSize`, hence the `% 2^32`. -/
def rowSizeOf (bw : Int) : Nat :=
  ((bw * 3 + 3) % 4294967296).toNat &&& 0xFFFFFFFC

/-- Row-order flag: `flip` stays true (bottom-up) unless the header
height is negative (main.cpp lines 853-858). -/
def bmpFlip (h0 : Int) : Bool := decide (0 ≤ h0)

/-- Magnitude of the header height: a negative height is negated
(main.cpp line 856). -/
def bmpAbsH (h0 : Int) : Int := if h0 < 0 then -h0 else h0

/-- File offset of the scanline serving decode row `r` (main.cpp lines
876-879): bottom-up rows are read from the end of the pixel data. -/
def rowPos (flip : Bool) (imgoff rowSize H r : Nat) : Nat :=
  if flip then imgoff + (H - 1 - r) * rowSize else imgoff + r * rowSize

/-- The seek of main.cpp lines 880-883: only when the current file
position differs from the row's offset does the position move, forcing a
buffer reload (`buffidx = sizeof(sdbuffer)`). -/
def rowSeek (imgoff rowSize H : Nat) (flip : Bool) (r : Nat) (st : RdState) : RdState :=
  if st.filePos ≠ rowPos flip imgoff rowSize H r
    then ⟨rowPos flip imgoff rowSize H r, st.buf, 60⟩ else st

/-- One scanline of the decoder (main.cpp lines 869-911): seek only when
the file position differs from the row's offset, run the column loop,
then flush the remaining pending pixels with
`pushColours(row, col - lcdidx, ...)` where `col = w`. -/
def rowStep (f : List Nat) (imgoff rowSize H : Nat) (flip : Bool) (w r : Nat)
    (st : RdState) (ws : List Write) : RdState × List Write :=
  ((colLoop f r 0 w (rowSeek imgoff rowSize H flip r st) [] ws).1,
    (colLoop f r 0 w (rowSeek imgoff rowSize H flip r st) [] ws).2.2 ++
      pushColours r
        (w - (colLoop f r 0 w (rowSeek imgoff rowSize H flip r st) [] ws).2.1.length)
        (colLoop f r 0 w (rowSeek imgoff rowSize H flip r st) [] ws).2.1)

/-- The scanline loop `for (row=0; row<h; row++)`, processing `n` more
rows starting at row `r`. -/
def rowLoop (f : List Nat) (imgoff rowSize H : Nat) (flip : Bool) (w : Nat) :
    Nat → Nat → RdState × List Write → RdState × List Write
  | _, 0, s => s
  | r, n + 1, s =>
    rowLoop f imgoff rowSize H flip w (r + 1) n
      (rowStep f imgoff rowSize H flip w r s.1 s.2)

/-- Crop of one image extent to the destination framebuffer (main.cpp
lines 863-864): `if ((off + v - 1) >= dim) v = dim - off`. -/
def clipExtent (off : Int) (dim : Nat) (v : Int) : Int :=
  if (dim : Int) ≤ off + v - 1 then (dim : Int) - off else v

/-- The write trace produced by a successful `bmpDraw` decode: header
fields at their fixed byte offsets (signature 0, image offset 10, width
18, height 22, planes 26, depth 28, compression 30; the reads of
main.cpp lines 830-842 leave the file position at 34), cropped extents,
and the buffered row/column loops. -/
def bmpDecodeWrites (f : List Nat) (p : Paint) (x y : Int) : List Write :=
  (rowLoop f (read32at f 10) (rowSizeOf (toInt32 (read32at f 18)))
      (bmpAbsH (toInt32 (read32at f 22))).toNat (bmpFlip (toInt32 (read32at f 22)))
      (clipExtent x p.width (toInt32 (read32at f 18))).toNat 0
      (clipExtent y p.height (bmpAbsH (toInt32 (read32at f 22)))).toNat
      (⟨34, List.replicate 60 0, 60⟩, [])).2

/-- Result of `bmpDraw`: the framebuffer, the trace of `DrawPixel` calls
and whether `LittleFS.open` was reached. -/
structure BmpResult where
  paint : Paint
  writes : List Write
  opened : Bool

/-- Model of `bmpDraw` (main.cpp lines 798-921).  The coordinate guard
precedes the file open; a missing file or a header that is not an
uncompressed 24-bit single-plane BMP draws nothing.  On a good header
the framebuffer is mutated by exactly the `DrawPixel` calls of the
decode loops, in order. -/
def bmpDraw : Option (List Nat) → Paint → Int → Int → BmpResult
  | none, p, x, y =>
    if (p.width : Int) ≤ x ∨ (p.height : Int) ≤ y then ⟨p, [], false⟩
    else ⟨p, [], true⟩
  | some f, p, x, y =>
    if (p.width : Int) ≤ x ∨ (p.height : Int) ≤ y then ⟨p, [], false⟩
    else
      if read16at f 0 = 0x4D42 then
        if read16at f 26 = 1 then
          if read16at f 28 = 24 ∧ read32at f 30 = 0 then
            let ws := bmpDecodeWrites f p x y
            ⟨applyWrites p ws, ws, true⟩
          else ⟨p, [], true⟩
        else ⟨p, [], true⟩
      else ⟨p, [], true⟩

/-- Modelled from the spec (§4.2, C7's reference): the value of pixel
`(r, c)` as read by a reference decode that addresses each pixel's three
bytes directly at `rowPos + 3*c` (blue, green, red in file order). -/
def refPixVal (f : List Nat) (pos c : Nat) : Nat :=
  bmpPixelValue (byteAt f (pos + 3 * c + 2)) (byteAt f (pos + 3 * c + 1))
    (byteAt f (pos + 3 * c))

/-- Modelled from the spec: write trace of one scanline of the reference
decode, columns 0 to `n-1` in order. -/
def refRowWrites (f : List Nat) (pos r : Nat) : Nat → List Write
  | 0 => []
  | c + 1 => refRowWrites f pos r c ++
      [(r, c, if refPixVal f pos c ≠ 0 then WHITE else BLACK)]

/-- Modelled from the spec: write trace of the reference decode that
seeks unconditionally to each row's offset, rows `r` to `r+n-1`. -/
def refWritesFrom (f : List Nat) (imgoff rowSize H : Nat) (flip : Bool)
    (w : Nat) : Nat → Nat → List Write
  | _, 0 => []
  | r, n + 1 => refRowWrites f (rowPos flip imgoff rowSize H r) r w ++
      refWritesFrom f imgoff rowSize H flip w (r + 1) n

/-- The destination coordinates of a write trace. -/
def writeCoords (ws : List Write) : List (Nat × Nat) :=
  ws.map (fun t => (t.1, t.2.1))

/-- Coordinates written for one scanline: `(r, 0), ..., (r, n-1)`. -/
def rowCoords (r : Nat) : Nat → List (Nat × Nat)
  | 0 => []
  | c + 1 => rowCoords r c ++ [(r, c)]

/-- Coordinates written by the decode loops for rows `r` to `r+n-1`. -/
def refCoordsFrom (w : Nat) : Nat → Nat → List (Nat × Nat)
  | _, 0 => []
  | r, n + 1 => rowCoords r w ++ refCoordsFrom w (r + 1) n

/-- Model of `PNGDraw`'s pixel loop body (main.cpp lines 951-954):
`DrawPixel(i, y, usPixels[i] != 0 ? BLACK : WHITE)`. -/
def PNGDrawLoop (y : Nat) (line : List Nat) : Nat → Nat → Paint → Paint
  | _, 0, p => p
  | i, n + 1, p =>
    PNGDrawLoop y line (i + 1) n
      (p.DrawPixel (i : Int) (y : Int) (if line.getD i 0 ≠ 0 then BLACK else WHITE))

/-- Model of `PNGDraw` (main.cpp lines 947-955): one decoded scanline
`line` (the RGB565 values of `usPixels`) at row `y`, thresholded into
the framebuffer for `i < iWidth && i < paint.GetWidth()`. -/
def PNGDraw (p : Paint) (y : Nat) (line : List Nat) : Paint :=
  PNGDrawLoop y line 0 (min line.length p.width) p

/-- The two codecs `display_image` can dispatch to. -/
inductive Codec where
  | png : Codec
  | bmp : Codec
deriving DecidableEq

/-- Arduino `String::endsWith` on filenames modelled as char lists. -/
def endsWithL (s suffix : List Char) : Bool := suffix.isSuffixOf s

/-- Codec selection of `display_image` (main.cpp lines 958-995):
`.png` (exact case) picks the PNG codec, else `.bmp` or `.BMP` picks the
bitmap codec, else nothing is decoded and no display update happens
(modelled as `none`).  The PNG branch is compiled out on ESP8266; the
model is the full (ESP32) build. -/
def display_image_codec (s : List Char) : Option Codec :=
  if endsWithL s ".png".toList then some Codec.png
  else if endsWithL s ".bmp".toList || endsWithL s ".BMP".toList then some Codec.bmp
  else none

/-- Pixel bytes of one snapshot row (main.cpp lines 1203-1210): for each
column the packed bit is expanded to three equal bytes 0xFF (bit set)
or 0. -/
def snapRowPix (p : Paint) (row : Nat) : Nat → List Nat
  | 0 => []
  | c + 1 => snapRowPix p row c ++
      (if (p.image.getD ((row * p.width + c) / 8) 0) &&& (0x80 >>> (c % 8)) ≠ 0
        then [0xFF, 0xFF, 0xFF] else [0, 0, 0])

/-- One full snapshot row as written to the file (main.cpp lines
1201-1216): `3*width` pixel bytes, then `4 - width % 4` zero padding
bytes when `width % 4 != 0`. -/
def snapRow (p : Paint) (row : Nat) : List Nat :=
  snapRowPix p row p.width ++
    (if p.width % 4 ≠ 0 then List.replicate (4 - p.width % 4) 0 else [])

/-- Snapshot rows in emitted order: `for (row = h-1; row >= 0; --row)`
(main.cpp line 1201), so row `count-1` first. -/
def snapRowsDown (p : Paint) : Nat → List Nat
  | 0 => []
  | r + 1 => snapRow p r ++ snapRowsDown p r

/-- The 14-byte BMP file header the snapshot encoder writes (main.cpp
lines 1178-1185): signature, little-endian file size, pixel data at
offset 54. -/
def bmpfileheader (filesize : Nat) : List Nat :=
  [0x42, 0x4D, filesize % 256, filesize / 256 % 256, filesize / 65536 % 256,
    filesize / 16777216 % 256, 0, 0, 0, 0, 54, 0, 0, 0]

/-- The 40-byte DIB header the snapshot encoder writes (main.cpp lines
1179, 1187-1194): header size 40, width, height, 1 plane, 24 bpp, the
remaining 24 bytes zero (compression 0). -/
def bmpinfoheader (w h : Nat) : List Nat :=
  [40, 0, 0, 0, w % 256, w / 256 % 256, w / 65536 % 256, w / 16777216 % 256,
    h % 256, h / 256 % 256, h / 65536 % 256, h / 16777216 % 256, 1, 0, 24, 0] ++
    List.replicate 24 0

/-- Model of the snapshot encoder `snapshot` (main.cpp lines 1165-1219):
the byte content of the emitted bitmap file (file size field
`54 + 3*width*height` as computed at line 1180). -/
def snapshot (p : Paint) : List Nat :=
  bmpfileheader (54 + 3 * p.width * p.height) ++ bmpinfoheader p.width p.height ++
    snapRowsDown p p.height

/-- A fresh all-white framebuffer of dimensions `n × n` over an `L`-byte
backing store, as `display_image` prepares it (`paint.Clear(WHITE)`). -/
def freshWhite (n L : Nat) : Paint :=
  Paint.Clear ⟨n, n, List.replicate L 0⟩ WHITE

/-- Concrete framebuffer for the round-trip counterexample: 8×8, all
white except the pixel at x=1, y=0 (bit 1 of byte 0 cleared). -/
def c1Fb : Paint := ⟨8, 8, [191, 255, 255, 255, 255, 255, 255, 255]⟩

/-- Concrete well-formed top-down bitmap file for the seek-avoidance
counterexample: width 19 (row size 60 = one full chunk, 57 pixel bytes +
3 padding bytes), height -2 (top-down), pixel data at offset 54; row 0
is all zeros, row 1 starts with a white pixel (bytes 255,255,255). -/
def c7File : List Nat :=
  [0x42, 0x4D, 0, 0, 0, 0, 0, 0, 0, 0, 54, 0, 0, 0,
    40, 0, 0, 0, 19, 0, 0, 0, 254, 255, 255, 255, 1, 0, 24, 0, 0, 0, 0, 0] ++
    List.replicate 20 0 ++ List.replicate 60 0 ++
    ([255, 255, 255] ++ List.replicate 57 0)

/-- Destination framebuffer for the seek-avoidance counterexample:
19×19, 46 backing bytes, all white. -/
def c7Fb : Paint := ⟨19, 19, List.replicate 46 255⟩

/-- Coordinates emitted by one `pushColours` call: `(r, a), ..., (r, a+k-1)`;
only the length of the pending buffer matters for coordinates. -/
def pcCoords (r : Nat) : Nat → Nat → List (Nat × Nat)
  | _, 0 => []
  | a, k + 1 => (r, a) :: pcCoords r (a + 1) k

/-- Minimal 24-bit uncompressed header of a 9×9 bitmap (34 header bytes;
pixel reads fall past EOF and yield 0). -/
def c6WitFile : List Nat :=
  [0x42, 0x4D, 0, 0, 0, 0, 0, 0, 0, 0, 54, 0, 0, 0,
    40, 0, 0, 0, 9, 0, 0, 0, 9, 0, 0, 0, 1, 0, 24, 0, 0, 0, 0, 0]

/-- Destination framebuffer 8×8 with one spare backing byte (value 7)
past the pixel region. -/
def c6WitFb : Paint := ⟨8, 8, List.replicate 9 7⟩

/-- Complete bottom-up 1×1 bitmap file (row size 4): header, 20 filler
bytes up to the pixel offset 54, one white pixel and one padding byte. -/
def c7WitFile : List Nat :=
  [0x42, 0x4D, 0, 0, 0, 0, 0, 0, 0, 0, 54, 0, 0, 0,
    40, 0, 0, 0, 1, 0, 0, 0, 1, 0, 0, 0, 1, 0, 24, 0, 0, 0, 0, 0] ++
    List.replicate 20 0 ++ [255, 255, 255, 0]

/-- All-white 8×8 destination framebuffer. -/
def c7WitFb : Paint := ⟨8, 8, List.replicate 8 255⟩

theorem byteAt_lt (f : List Nat) (i : Nat) : byteAt f i < 256 :=
  Nat.mod_lt _ (by norm_num)

/-- C2: the snapshot encoder's row byte count is NOT always a multiple
of 4: for a width-1 framebuffer a row is 3 pixel bytes plus
`4 - (1 % 4) = 3` padding bytes, 6 bytes in total.  The BMP format (and
the repository's own decoder, whose row stride is `(3*w + 3) & ~3 = 4`)
requires rows padded to a 4-byte boundary, so the emitted file is
malformed for odd widths: the padding count should be `w % 4`
(equivalently `(4 - (3*w) % 4) % 4`), not `4 - w % 4`. -/
theorem c2_row_padding_bug :
    (snapRow (⟨1, 1, [0]⟩ : Paint) 0).length = 6 ∧
      ¬ (4 ∣ (snapRow (⟨1, 1, [0]⟩ : Paint) 0).length) := by
  decide

theorem endsWithL_append (s t : List Char) : endsWithL (s ++ t) t = true := by
  simp only [endsWithL]
  exact List.isSuffixOf_iff_suffix.mpr (List.suffix_append s t)

theorem endsWithL_append_ne (s t u : List Char) (hlen : t.length = u.length)
    (hne : t ≠ u) : endsWithL (s ++ t) u = false := by
  simp only [endsWithL]
  rw [Bool.eq_false_iff]
  intro hsuf
  apply hne
  have h1 := List.suffix_iff_eq_drop.mp (List.suffix_append s t)
  have h2 := List.suffix_iff_eq_drop.mp (List.isSuffixOf_iff_suffix.mp hsuf)
  rw [h1, h2, hlen]

/-- C8 counterexample: the claim says the bitmap codec is selected for
the `.bmp` suffix "in any letter case", but the mixed-case filename
"a.bMp" matches neither `endsWith(".bmp")` nor `endsWith(".BMP")` (nor
".png"), so no codec is selected and nothing is decoded or displayed. -/
theorem c8_codec_selection_counterexample :
    display_image_codec ("a.bMp".toList) = none := by decide

/-- C8 (amended): codec selection is by exact suffix match: ".png"
(case-sensitive) selects the PNG codec; exactly the two spellings
".bmp" and ".BMP" select the bitmap codec; any other suffix (including
mixed-case variants such as ".bMp") selects nothing, so no decode and
no display update happens. -/
theorem c8_codec_selection (s : List Char) :
    display_image_codec (s ++ ".png".toList) = some Codec.png ∧
    display_image_codec (s ++ ".bmp".toList) = some Codec.bmp ∧
    display_image_codec (s ++ ".BMP".toList) = some Codec.bmp ∧
    display_image_codec (s ++ ".bMp".toList) = none := by
  refine ⟨?_, ?_, ?_, ?_⟩
  · simp [display_image_codec, endsWithL_append]
  · have h1 : endsWithL (s ++ ['.', 'b', 'm', 'p']) ['.', 'p', 'n', 'g'] = false :=
      endsWithL_append_ne s _ _ (by decide) (by decide)
    simp [display_image_codec, endsWithL_append, h1]
  · have h1 : endsWithL (s ++ ['.', 'B', 'M', 'P']) ['.', 'p', 'n', 'g'] = false :=
      endsWithL_append_ne s _ _ (by decide) (by decide)
    have h2 : endsWithL (s ++ ['.', 'B', 'M', 'P']) ['.', 'b', 'm', 'p'] = false :=
      endsWithL_append_ne s _ _ (by decide) (by decide)
    simp [display_image_codec, endsWithL_append, h1, h2]
  · have h1 : endsWithL (s ++ ['.', 'b', 'M', 'p']) ['.', 'p', 'n', 'g'] = false :=
      endsWithL_append_ne s _ _ (by decide) (by decide)
    have h2 : endsWithL (s ++ ['.', 'b', 'M', 'p']) ['.', 'b', 'm', 'p'] = false :=
      endsWithL_append_ne s _ _ (by decide) (by decide)
    have h3 : endsWithL (s ++ ['.', 'b', 'M', 'p']) ['.', 'B', 'M', 'P'] = false :=
      endsWithL_append_ne s _ _ (by decide) (by decide)
    simp [display_image_codec, h1, h2, h3]

/-- C9: when the x offset is at least the framebuffer width or the y
offset is at least the framebuffer height, `bmpDraw` returns before the
file open: the framebuffer is unchanged, no pixel is written and the
file is never opened. -/
theorem c9_offset_guard (file : Option (List Nat)) (p : Paint) (x y : Int)
    (h : (p.width : Int) ≤ x ∨ (p.height : Int) ≤ y) :
    bmpDraw file p x y = ⟨p, [], false⟩ := by
  cases file <;> (simp only [bmpDraw]; rw [if_pos h])

/-- Witness for C9 at a concrete input. -/
theorem c9_offset_guard_witness :
    bmpDraw (some [1, 2, 3]) ⟨2, 2, [0]⟩ 5 0 = ⟨⟨2, 2, [0]⟩, [], false⟩ :=
  c9_offset_guard (some [1, 2, 3]) ⟨2, 2, [0]⟩ 5 0 (Or.inl (by norm_num))

/-- C4: an input whose signature bytes are not 'B','M', or whose plane
count is not 1, or whose bit depth is not 24, or whose compression flag
is not 0, is rejected: no pixel write happens and the framebuffer is
returned byte-for-byte unchanged. -/
theorem c4_reject_without_drawing (f : List Nat) (p : Paint) (x y : Int)
    (h : byteAt f 0 ≠ 0x42 ∨ byteAt f 1 ≠ 0x4D ∨ read16at f 26 ≠ 1 ∨
      read16at f 28 ≠ 24 ∨ read32at f 30 ≠ 0) :
    (bmpDraw (some f) p x y).paint = p ∧ (bmpDraw (some f) p x y).writes = [] := by
  simp only [bmpDraw]
  split_ifs with h1 h2 h3 h4 <;> try exact ⟨rfl, rfl⟩
  exfalso
  have hb0 := byteAt_lt f 0
  have hb1 := byteAt_lt f 1
  simp only [read16at, show (0 : Nat) + 1 = 1 from rfl] at h2
  rcases h with h | h | h | h | h
  · omega
  · omega
  · exact h h3
  · exact h h4.1
  · exact h h4.2

/-- Witness for C4: the empty file (signature byte 0). -/
theorem c4_reject_without_drawing_witness :
    (bmpDraw (some []) ⟨1, 1, [0]⟩ 0 0).paint = ⟨1, 1, [0]⟩ ∧
      (bmpDraw (some []) ⟨1, 1, [0]⟩ 0 0).writes = [] :=
  c4_reject_without_drawing [] ⟨1, 1, [0]⟩ 0 0 (Or.inl (by decide))

theorem land_mask32 (x : Nat) (hx : x < 4294967296) :
    x &&& 0xFFFFFFFC = x / 4 * 4 := by
  have h4 : (0xFFFFFFFC : Nat) = (2 ^ 30 - 1) <<< 2 := by
    rw [Nat.shiftLeft_eq]
    norm_num
  have hdm : x / 4 * 4 = (x >>> 2) <<< 2 := by
    rw [Nat.shiftRight_eq_div_pow, Nat.shiftLeft_eq]
  rw [h4, hdm]
  apply Nat.eq_of_testBit_eq
  intro i
  rw [Nat.testBit_land, Nat.testBit_shiftLeft, Nat.testBit_shiftLeft,
    Nat.testBit_shiftRight, Nat.testBit_two_pow_sub_one]
  by_cases h2 : 2 ≤ i
  · by_cases h32 : i < 32
    · have hi : 2 + (i - 2) = i := by omega
      simp [h2, hi, show i - 2 < 30 by omega]
    · have hpow : (4294967296 : Nat) ≤ 2 ^ i := by
        calc (4294967296 : Nat) = 2 ^ 32 := by norm_num
          _ ≤ 2 ^ i := Nat.pow_le_pow_right (by norm_num) (by omega)
      have hz : x.testBit i = false := Nat.testBit_lt_two_pow (lt_of_lt_of_le hx hpow)
      have hi : 2 + (i - 2) = i := by omega
      simp [h2, hi, hz, show ¬ (i - 2 < 30) by omega]
  · simp [show ¬ (i ≥ 2) by omega]

/-- C5: the decoder's row stride `(width*3 + 3) & ~3` equals
`((width*3 + 3) / 4) * 4` (for every width for which the C `int`
arithmetic does not overflow, i.e. `3*width + 3 < 2^31`); a bottom-up
row `r` is read from `imageoffset + (height-1-r)*rowSize`, a top-down
row (flip flag false) from `imageoffset + r*rowSize`; and a negative
header height clears the flip flag (top-down order). -/
theorem c5_row_addressing :
    (∀ W : Nat, W ≤ 715827881 → rowSizeOf (W : Int) = (W * 3 + 3) / 4 * 4) ∧
    (∀ imgoff rs H r : Nat, rowPos true imgoff rs H r = imgoff + (H - 1 - r) * rs) ∧
    (∀ imgoff rs H r : Nat, rowPos false imgoff rs H r = imgoff + r * rs) ∧
    (∀ h0 : Int, h0 < 0 → bmpFlip h0 = false) := by
  refine ⟨?_, fun _ _ _ _ => rfl, fun _ _ _ _ => rfl, ?_⟩
  · intro W hW
    unfold rowSizeOf
    have h1 : ((W : Int) * 3 + 3) % 4294967296 = ((W * 3 + 3 : Nat) : Int) := by
      push_cast
      rw [Int.emod_eq_of_lt (by positivity) (by omega)]
    rw [h1, Int.toNat_natCast]
    exact land_mask32 (W * 3 + 3) (by omega)
  · intro h0 hneg
    exact decide_eq_false (by omega)

/-- Witness for C5 at concrete inputs: width 5 gives stride 16, and a
negative header height clears the flip flag. -/
theorem c5_row_addressing_witness :
    rowSizeOf (5 : Int) = 16 ∧ bmpFlip (-2) = false := by
  constructor
  · have h := c5_row_addressing.1 5 (by norm_num)
    simpa using h
  · exact c5_row_addressing.2.2.2 (-2) (by norm_num)


theorem mask_shift_eq : ∀ s < 8, (0x80 : Nat) >>> s = 2 ^ (7 - s) := by decide

theorem and_pow_ne_zero (b t : Nat) : b &&& 2 ^ t ≠ 0 ↔ b.testBit t := by
  rw [Nat.and_two_pow]
  cases h : b.testBit t
  · simp [h]
  · simp [h]

theorem pixelSet_testBit (p : Paint) (x y : Nat) :
    p.pixelSet x y ↔ (p.image.getD ((x + y * p.width) / 8) 0).testBit (7 - x % 8) := by
  unfold Paint.pixelSet
  rw [mask_shift_eq (x % 8) (Nat.mod_lt _ (by norm_num)), and_pow_ne_zero]

theorem DrawPixel_eq_of_lt (p : Paint) (x y c : Nat) (hx : x < p.width)
    (hy : y < p.height) :
    p.DrawPixel (x : Int) (y : Int) c =
      ⟨p.width, p.height, p.image.set ((x + y * p.width) / 8)
        (if c ≠ 0 then p.image.getD ((x + y * p.width) / 8) 0 ||| 2 ^ (7 - x % 8)
         else p.image.getD ((x + y * p.width) / 8) 0 &&& (0xFF ^^^ 2 ^ (7 - x % 8)))⟩ := by
  unfold Paint.DrawPixel
  rw [if_pos ⟨Int.natCast_nonneg x, by exact_mod_cast hx, Int.natCast_nonneg y,
    by exact_mod_cast hy⟩]
  simp only [Int.toNat_natCast]
  rw [mask_shift_eq (x % 8) (Nat.mod_lt _ (by norm_num))]

theorem DrawPixel_eq_of_not (p : Paint) (x y c : Nat)
    (h : ¬(x < p.width ∧ y < p.height)) :
    p.DrawPixel (x : Int) (y : Int) c = p := by
  unfold Paint.DrawPixel
  rw [if_neg]
  intro hc
  exact h ⟨by exact_mod_cast hc.2.1, by exact_mod_cast hc.2.2.2⟩

theorem testBit_or_self (b t : Nat) : (b ||| 2 ^ t).testBit t = true := by
  simp [Nat.testBit_or, Nat.testBit_two_pow]

theorem testBit_byte_and_self (b t : Nat) (ht : t < 8) :
    (b &&& (0xFF ^^^ 2 ^ t)).testBit t = false := by
  rw [Nat.testBit_land, Nat.testBit_xor]
  rw [show (0xFF : Nat) = 2 ^ 8 - 1 by norm_num]
  rw [Nat.testBit_two_pow_sub_one, Nat.testBit_two_pow]
  simp [ht]

theorem testBit_or_ne (b t u : Nat) (h : t ≠ u) :
    (b ||| 2 ^ t).testBit u = b.testBit u := by
  rw [Nat.testBit_or, Nat.testBit_two_pow]
  simp [h]

theorem testBit_byte_and_ne (b t u : Nat) (h : t ≠ u) (hu : u < 8) :
    (b &&& (0xFF ^^^ 2 ^ t)).testBit u = b.testBit u := by
  rw [Nat.testBit_land, Nat.testBit_xor]
  rw [show (0xFF : Nat) = 2 ^ 8 - 1 by norm_num]
  rw [Nat.testBit_two_pow_sub_one, Nat.testBit_two_pow]
  simp [h, hu]

theorem DrawPixel_width (p : Paint) (x y : Int) (c : Nat) :
    (p.DrawPixel x y c).width = p.width := by
  unfold Paint.DrawPixel
  split <;> rfl

theorem DrawPixel_height (p : Paint) (x y : Int) (c : Nat) :
    (p.DrawPixel x y c).height = p.height := by
  unfold Paint.DrawPixel
  split <;> rfl

theorem DrawPixel_image_length (p : Paint) (x y : Int) (c : Nat) :
    (p.DrawPixel x y c).image.length = p.image.length := by
  unfold Paint.DrawPixel
  split <;> simp [List.length_set]

theorem getD_set_same (l : List Nat) (i : Nat) (a : Nat) (h : i < l.length) :
    (l.set i a).getD i 0 = a := by
  rw [List.getD_eq_getElem?_getD, List.getElem?_set_self h]
  rfl

theorem getD_set_ne (l : List Nat) (i j : Nat) (a : Nat) (h : i ≠ j) :
    (l.set i a).getD j 0 = l.getD j 0 := by
  rw [List.getD_eq_getElem?_getD, List.getElem?_set_ne h, ← List.getD_eq_getElem?_getD]

theorem pixel_index_lt (p : Paint) (x y : Nat) (hx : x < p.width) (hy : y < p.height)
    (hcap : p.width * p.height ≤ 8 * p.image.length) :
    (x + y * p.width) / 8 < p.image.length := by
  have h1 : (y + 1) * p.width = y * p.width + p.width := by ring
  have h2 : (y + 1) * p.width ≤ p.height * p.width :=
    Nat.mul_le_mul_right _ hy
  have h3 : p.height * p.width = p.width * p.height := Nat.mul_comm _ _
  rw [Nat.div_lt_iff_lt_mul (by norm_num)]
  omega

theorem pixelSet_DrawPixel_self (p : Paint) (x y c : Nat) (hx : x < p.width)
    (hy : y < p.height) (hcap : p.width * p.height ≤ 8 * p.image.length) :
    ((p.DrawPixel (x : Int) (y : Int) c).pixelSet x y ↔ c ≠ 0) := by
  have hidx := pixel_index_lt p x y hx hy hcap
  rw [DrawPixel_eq_of_lt p x y c hx hy, pixelSet_testBit]
  simp only [getD_set_same _ _ _ hidx]
  by_cases hc : c = 0
  · subst hc
    simp only [ne_eq, not_true_eq_false, if_false]
    simp [testBit_byte_and_self _ _ (show 7 - x % 8 < 8 by omega)]
  · simp only [ne_eq, hc, not_false_eq_true, if_true]
    simp [hc, testBit_or_self]

theorem pixelSet_DrawPixel_ne (p : Paint) (x' y' c x y : Nat)
    (hx : x < p.width) (hy : y < p.height)
    (hne : ¬(x' = x ∧ y' = y)) (hal : 8 ∣ p.width ∨ y' = y) :
    ((p.DrawPixel (x' : Int) (y' : Int) c).pixelSet x y ↔ p.pixelSet x y) := by
  by_cases hin : x' < p.width ∧ y' < p.height
  · rw [DrawPixel_eq_of_lt p x' y' c hin.1 hin.2, pixelSet_testBit, pixelSet_testBit]
    simp only []
    by_cases hbyte : (x' + y' * p.width) / 8 = (x + y * p.width) / 8
    · have hmod : x' % 8 ≠ x % 8 := by
        intro hmm
        rcases hal with h8 | hyy
        · obtain ⟨m, hm⟩ := h8
          have e1 : (x' + y' * p.width) % 8 = x' % 8 := by
            rw [hm, show y' * (8 * m) = y' * m * 8 from by ring]
            exact Nat.add_mul_mod_self_right x' (y' * m) 8
          have e2 : (x + y * p.width) % 8 = x % 8 := by
            rw [hm, show y * (8 * m) = y * m * 8 from by ring]
            exact Nat.add_mul_mod_self_right x (y * m) 8
          have hk : x' + y' * p.width = x + y * p.width := by omega
          have hw0 : 0 < p.width := by omega
          have m1 := Nat.add_mul_mod_self_right x' y' p.width
          have m2 := Nat.add_mul_mod_self_right x y p.width
          rw [Nat.mod_eq_of_lt hin.1] at m1
          rw [Nat.mod_eq_of_lt hx] at m2
          have ex : x' = x := by rw [← m1, hk, m2]
          have ey : y' = y := by
            rw [ex] at hk
            exact Nat.eq_of_mul_eq_mul_right hw0 (show y' * p.width = y * p.width by omega)
          exact hne ⟨ex, ey⟩
        · subst hyy
          have hk : x' + y' * p.width = x + y' * p.width := by omega
          exact hne ⟨by omega, rfl⟩
      have ht : 7 - x' % 8 ≠ 7 - x % 8 := by
        have hb1 : x' % 8 < 8 := Nat.mod_lt _ (by norm_num)
        have hb2 : x % 8 < 8 := Nat.mod_lt _ (by norm_num)
        omega
      rw [hbyte]
      by_cases hlen : (x + y * p.width) / 8 < p.image.length
      · rw [getD_set_same _ _ _ hlen]
        by_cases hc : c ≠ 0
        · rw [if_pos hc, testBit_or_ne _ _ _ ht]
        · rw [if_neg hc, testBit_byte_and_ne _ _ _ ht (by omega)]
      · rw [List.set_eq_of_length_le (by omega)]
    · rw [getD_set_ne _ _ _ _ hbyte]
  · rw [DrawPixel_eq_of_not p x' y' c hin]

theorem PNGDrawLoop_pixelSet_lt (y : Nat) (line : List Nat) :
    ∀ (n i0 : Nat) (p : Paint) (x : Nat), x < i0 → x < p.width → y < p.height →
    ((PNGDrawLoop y line i0 n p).pixelSet x y ↔ p.pixelSet x y) := by
  intro n
  induction n with
  | zero => intro i0 p x _ _ _; exact Iff.rfl
  | succ n ih =>
    intro i0 p x hlt hxw hyh
    unfold PNGDrawLoop
    rw [ih (i0 + 1) _ x (by omega) (by rw [DrawPixel_width]; exact hxw)
      (by rw [DrawPixel_height]; exact hyh)]
    exact pixelSet_DrawPixel_ne p i0 y _ x y hxw hyh (by omega) (Or.inr rfl)

theorem PNGDrawLoop_pixelSet_main (y : Nat) (line : List Nat) :
    ∀ (n i0 : Nat) (p : Paint) (i : Nat), i0 ≤ i → i < i0 + n → i < p.width →
    y < p.height → p.width * p.height ≤ 8 * p.image.length →
    ((PNGDrawLoop y line i0 n p).pixelSet i y ↔ line.getD i 0 = 0) := by
  intro n
  induction n with
  | zero => intro i0 p i h1 h2; omega
  | succ n ih =>
    intro i0 p i h1 h2 hiw hyh hcap
    unfold PNGDrawLoop
    by_cases hi : i = i0
    · subst hi
      rw [PNGDrawLoop_pixelSet_lt y line n (i + 1) _ i (by omega)
        (by rw [DrawPixel_width]; exact hiw) (by rw [DrawPixel_height]; exact hyh)]
      rw [pixelSet_DrawPixel_self p i y _ hiw hyh hcap]
      by_cases h : line.getD i 0 = 0
      · simp [h, WHITE, BLACK]
      · simp [h, WHITE, BLACK]
    · exact (by
        rw [ih (i0 + 1) _ i (by omega) (by omega)
          (by rw [DrawPixel_width]; exact hiw) (by rw [DrawPixel_height]; exact hyh)
          (by rw [DrawPixel_width, DrawPixel_height, DrawPixel_image_length]; exact hcap)])

/-- C3 (amended): the generic compressed-image codec's threshold rule is
the opposite of the claim: a decoded pixel value of 0 is written to the
framebuffer as WHITE, and every non-zero pixel value is written as
BLACK (`usPixels[i] != 0 ? BLACK : WHITE`, main.cpp line 953). -/
theorem c3_png_threshold (p : Paint) (y : Nat) (line : List Nat) (i : Nat)
    (hi : i < line.length) (hiw : i < p.width) (hy : y < p.height)
    (hcap : p.width * p.height ≤ 8 * p.image.length) :
    ((PNGDraw p y line).pixelSet i y ↔ line.getD i 0 = 0) := by
  unfold PNGDraw
  exact PNGDrawLoop_pixelSet_main y line _ 0 p i (Nat.zero_le _) (by omega) hiw hy hcap

/-- C3 counterexample: a decoded pixel value of 0 (at scanline 0,
column 0, on a 1×1 framebuffer) is written as WHITE — the packed bit is
set — contradicting the claim that value 0 is written as BLACK. -/
theorem c3_png_threshold_counterexample :
    (PNGDraw ⟨1, 1, [0]⟩ 0 [0]).pixelSet 0 0 := by decide

/-- Witness for C3 at a concrete input: a non-zero pixel value (5) is
written as BLACK (bit clear). -/
theorem c3_png_threshold_witness :
    ¬ (PNGDraw ⟨8, 1, [0]⟩ 0 [5]).pixelSet 0 0 := by
  intro hp
  have h := c3_png_threshold ⟨8, 1, [0]⟩ 0 [5] 0 (by norm_num) (by norm_num)
    (by norm_num) (by norm_num)
  exact absurd (h.mp hp) (by norm_num)

theorem writeCoords_append (a b : List Write) :
    writeCoords (a ++ b) = writeCoords a ++ writeCoords b := by
  simp [writeCoords]

theorem pushColours_coords (r : Nat) :
    ∀ (l : List Nat) (a : Nat), writeCoords (pushColours r a l) = pcCoords r a l.length := by
  intro l
  induction l with
  | nil => intro a; rfl
  | cons v rest ih =>
    intro a
    simp only [pushColours, writeCoords, List.map_cons, List.length_cons, pcCoords]
    rw [← ih (a + 1)]
    rfl

theorem pcCoords_snoc (r : Nat) :
    ∀ (k a : Nat), pcCoords r a (k + 1) = pcCoords r a k ++ [(r, a + k)] := by
  intro k
  induction k with
  | zero => intro a; simp [pcCoords]
  | succ k ih =>
    intro a
    have h1 : pcCoords r a (k + 1 + 1) = (r, a) :: pcCoords r (a + 1) (k + 1) := rfl
    have h2 : pcCoords r a (k + 1) = (r, a) :: pcCoords r (a + 1) k := rfl
    rw [h1, ih (a + 1), h2]
    simp [show a + 1 + k = a + (k + 1) from by omega]

theorem colStep_coords (f : List Nat) (row c : Nat) (st : RdState) (lcd : List Nat)
    (ws : List Write) (h1 : lcd.length ≤ c) :
    (colStep f row c st lcd ws).2.1.length ≤ c + 1 ∧
    (∀ ws₀, writeCoords ws ++ pcCoords row (c - lcd.length) lcd.length =
        writeCoords ws₀ ++ rowCoords row c →
      writeCoords (colStep f row c st lcd ws).2.2 ++
        pcCoords row ((c + 1) - (colStep f row c st lcd ws).2.1.length)
          (colStep f row c st lcd ws).2.1.length =
        writeCoords ws₀ ++ rowCoords row (c + 1)) := by
  by_cases hb : 60 ≤ st.buffidx
  · simp only [colStep, if_pos hb, pixelRead, List.nil_append, List.length_cons,
      List.length_nil]
    refine ⟨by omega, ?_⟩
    intro ws₀ h2
    rw [writeCoords_append, pushColours_coords]
    rw [show c + 1 - (0 + 1) = c from by omega]
    have h3 := congrArg (· ++ [(row, c)]) h2
    rw [show pcCoords row c (0 + 1) = [(row, c)] from rfl]
    rw [show rowCoords row (c + 1) = rowCoords row c ++ [(row, c)] from rfl]
    try simp only [List.append_assoc] at h3
    try simp only [List.append_assoc]
    exact h3
  · simp only [colStep, if_neg hb, pixelRead, List.length_append, List.length_cons,
      List.length_nil]
    refine ⟨by omega, ?_⟩
    intro ws₀ h2
    rw [show c + 1 - (lcd.length + (0 + 1)) = c - lcd.length from by omega]
    rw [show lcd.length + (0 + 1) = lcd.length + 1 from rfl]
    rw [pcCoords_snoc, show c - lcd.length + lcd.length = c from by omega]
    have h3 := congrArg (· ++ [(row, c)]) h2
    rw [show rowCoords row (c + 1) = rowCoords row c ++ [(row, c)] from rfl]
    try simp only [List.append_assoc] at h3
    try simp only [List.append_assoc]
    exact h3

theorem colLoop_coords (f : List Nat) (row : Nat) :
    ∀ (n c : Nat) (st : RdState) (lcd : List Nat) (ws ws₀ : List Write),
    lcd.length ≤ c →
    writeCoords ws ++ pcCoords row (c - lcd.length) lcd.length =
      writeCoords ws₀ ++ rowCoords row c →
    (colLoop f row c n st lcd ws).2.1.length ≤ c + n ∧
    writeCoords (colLoop f row c n st lcd ws).2.2 ++
      pcCoords row ((c + n) - (colLoop f row c n st lcd ws).2.1.length)
        (colLoop f row c n st lcd ws).2.1.length =
      writeCoords ws₀ ++ rowCoords row (c + n) := by
  intro n
  induction n with
  | zero =>
    intro c st lcd ws ws₀ h1 h2
    simp only [colLoop]
    exact ⟨by omega, by simpa using h2⟩
  | succ n ih =>
    intro c st lcd ws ws₀ h1 h2
    have hs := colStep_coords f row c st lcd ws h1
    have hstep := ih (c + 1) (colStep f row c st lcd ws).1
      (colStep f row c st lcd ws).2.1 (colStep f row c st lcd ws).2.2 ws₀
      hs.1 (hs.2 ws₀ h2)
    simp only [colLoop]
    rw [show c + (n + 1) = (c + 1) + n from by omega]
    exact hstep

theorem rowStep_coords (f : List Nat) (imgoff rowSize H : Nat) (flip : Bool)
    (w r : Nat) (st : RdState) (ws : List Write) :
    writeCoords (rowStep f imgoff rowSize H flip w r st ws).2 =
      writeCoords ws ++ rowCoords r w := by
  unfold rowStep
  have h := colLoop_coords f r w 0 (rowSeek imgoff rowSize H flip r st)
    [] ws ws (by simp) (by simp [pcCoords, rowCoords])
  simp only [List.length_nil] at h
  rw [writeCoords_append, pushColours_coords]
  have h2 := h.2
  rw [show (0 : Nat) + w = w from by omega] at h2
  exact h2

theorem rowLoop_coords (f : List Nat) (imgoff rowSize H : Nat) (flip : Bool)
    (w : Nat) :
    ∀ (n r : Nat) (st : RdState) (ws : List Write),
    writeCoords (rowLoop f imgoff rowSize H flip w r n (st, ws)).2 =
      writeCoords ws ++ refCoordsFrom w r n := by
  intro n
  induction n with
  | zero => intro r st ws; simp [rowLoop, refCoordsFrom]
  | succ n ih =>
    intro r st ws
    simp only [rowLoop]
    have hrs := rowStep_coords f imgoff rowSize H flip w r st ws
    have h := ih (r + 1) (rowStep f imgoff rowSize H flip w r st ws).1
      (rowStep f imgoff rowSize H flip w r st ws).2
    rw [show (rowStep f imgoff rowSize H flip w r st ws) =
      ((rowStep f imgoff rowSize H flip w r st ws).1,
        (rowStep f imgoff rowSize H flip w r st ws).2) from rfl] at h ⊢
    rw [h, hrs]
    simp [refCoordsFrom, List.append_assoc]

theorem mem_rowCoords (r : Nat) :
    ∀ (n : Nat) (q : Nat × Nat), q ∈ rowCoords r n → q.1 = r ∧ q.2 < n := by
  intro n
  induction n with
  | zero => intro q hq; simp [rowCoords] at hq
  | succ n ih =>
    intro q hq
    simp only [rowCoords, List.mem_append, List.mem_singleton] at hq
    rcases hq with hq | hq
    · have := ih q hq
      omega
    · subst hq
      omega

theorem mem_refCoordsFrom (w : Nat) :
    ∀ (n r : Nat) (q : Nat × Nat), q ∈ refCoordsFrom w r n →
      r ≤ q.1 ∧ q.1 < r + n ∧ q.2 < w := by
  intro n
  induction n with
  | zero => intro r q hq; simp [refCoordsFrom] at hq
  | succ n ih =>
    intro r q hq
    simp only [refCoordsFrom, List.mem_append] at hq
    rcases hq with hq | hq
    · have := mem_rowCoords r w q hq
      omega
    · have := ih (r + 1) q hq
      omega

theorem applyWrites_getD_frame :
    ∀ (ws : List Write) (p : Paint) (i : Nat),
    (∀ t ∈ ws, t.1 < p.width → t.2.1 < p.height → (t.1 + t.2.1 * p.width) / 8 ≠ i) →
    (applyWrites p ws).image.getD i 0 = p.image.getD i 0 := by
  intro ws
  induction ws with
  | nil => intro p i _; rfl
  | cons t rest ih =>
    intro p i h
    obtain ⟨a, b, c⟩ := t
    simp only [applyWrites]
    rw [ih (p.DrawPixel (a : Int) (b : Int) c) i (by
      intro t ht
      rw [DrawPixel_width, DrawPixel_height]
      exact h t (List.mem_cons_of_mem _ ht))]
    by_cases hin : a < p.width ∧ b < p.height
    · rw [DrawPixel_eq_of_lt p a b c hin.1 hin.2]
      exact getD_set_ne _ _ _ _ (h (a, b, c) (List.mem_cons_self _ _) hin.1 hin.2)
    · rw [DrawPixel_eq_of_not p a b c hin]

theorem refCoordsFrom_zero : ∀ (n r : Nat), refCoordsFrom 0 r n = [] := by
  intro n
  induction n with
  | zero => intro r; rfl
  | succ n ih => intro r; simp [refCoordsFrom, rowCoords, ih]

theorem clipExtent_nonpos (off : Int) (dim : Nat) (v : Int)
    (h : (dim : Int) ≤ off) : (clipExtent off dim v).toNat = 0 := by
  unfold clipExtent
  split <;> omega

/-- C10: every decoded pixel at scanline row `r`, column `c` is written
to framebuffer coordinate `x = r`, `y = c` (row and column transposed):
the full coordinate trace of a successfully parsed decode is exactly
`(r, c)` for `r` below the clipped height and `c` below the clipped
width, in row-major order.  The `x`/`y` offset arguments enter only
through the clipping arithmetic (`clipExtent`) and are never added to
the written coordinates. -/
theorem c10_transposed_placement (f : List Nat) (p : Paint) (x y : Int)
    (hsig : read16at f 0 = 0x4D42) (hpl : read16at f 26 = 1)
    (hdc : read16at f 28 = 24 ∧ read32at f 30 = 0) :
    writeCoords (bmpDraw (some f) p x y).writes =
      refCoordsFrom (clipExtent x p.width (toInt32 (read32at f 18))).toNat 0
        (clipExtent y p.height (bmpAbsH (toInt32 (read32at f 22)))).toNat := by
  simp only [bmpDraw]
  split
  · rename_i hg
    rcases hg with hg | hg
    · rw [clipExtent_nonpos x p.width _ hg, refCoordsFrom_zero]
      rfl
    · rw [clipExtent_nonpos y p.height _ hg]
      rfl
  · simp only [if_pos hsig, if_pos hpl, if_pos hdc]
    show writeCoords (bmpDecodeWrites f p x y) = _
    unfold bmpDecodeWrites
    have h := rowLoop_coords f (read32at f 10) (rowSizeOf (toInt32 (read32at f 18)))
      (bmpAbsH (toInt32 (read32at f 22))).toNat (bmpFlip (toInt32 (read32at f 22)))
      (clipExtent x p.width (toInt32 (read32at f 18))).toNat
      (clipExtent y p.height (bmpAbsH (toInt32 (read32at f 22)))).toNat 0
      ⟨34, List.replicate 60 0, 60⟩ []
    simpa [writeCoords] using h

/-- Witness for C10 at a concrete input: the 19-wide, 2-row top-down
file decoded into a 19×19 framebuffer writes exactly coordinates
`(r, c)` for `r < 2`, `c < 19`. -/
theorem c10_transposed_placement_witness :
    writeCoords (bmpDraw (some c7File) c7Fb 0 0).writes = refCoordsFrom 19 0 2 := by
  have h := c10_transposed_placement c7File c7Fb 0 0 (by decide) (by decide)
    ⟨by decide, by decide⟩
  have e1 : (clipExtent 0 c7Fb.width (toInt32 (read32at c7File 18))).toNat = 19 := by
    decide
  have e2 : (clipExtent 0 c7Fb.height (bmpAbsH (toInt32 (read32at c7File 22)))).toNat = 2 := by
    decide
  rw [e1, e2] at h
  exact h

/-- C6: for a decoded bitmap strictly larger than the destination
framebuffer, the decode only ever writes (through the bounds-checked
`DrawPixel`) at coordinates `(r, c)` with `r` below the clipped height
and `c` below the clipped width, and within the framebuffer bounds;
every backing byte not addressed by such a pixel is unchanged after
`bmpDraw` returns. -/
theorem c6_clipping_frame (f : List Nat) (p : Paint) (x y : Int) (i : Nat)
    (hwide : (p.width : Int) < toInt32 (read32at f 18))
    (htall : (p.height : Int) < bmpAbsH (toInt32 (read32at f 22)))
    (hout : ∀ r c : Nat,
      r < (clipExtent y p.height (bmpAbsH (toInt32 (read32at f 22)))).toNat →
      c < (clipExtent x p.width (toInt32 (read32at f 18))).toNat →
      r < p.width → c < p.height → (r + c * p.width) / 8 ≠ i) :
    (bmpDraw (some f) p x y).paint.image.getD i 0 = p.image.getD i 0 := by
  simp only [bmpDraw]
  split
  · rfl
  · split
    · split
      · split
        · show (applyWrites p (bmpDecodeWrites f p x y)).image.getD i 0 = _
          apply applyWrites_getD_frame
          intro t ht h1 h2
          have hmem : (t.1, t.2.1) ∈ writeCoords (bmpDecodeWrites f p x y) :=
            List.mem_map_of_mem _ ht
          rw [show writeCoords (bmpDecodeWrites f p x y) =
            refCoordsFrom (clipExtent x p.width (toInt32 (read32at f 18))).toNat 0
              (clipExtent y p.height (bmpAbsH (toInt32 (read32at f 22)))).toNat from by
            unfold bmpDecodeWrites
            simpa [writeCoords] using rowLoop_coords f (read32at f 10)
              (rowSizeOf (toInt32 (read32at f 18)))
              (bmpAbsH (toInt32 (read32at f 22))).toNat
              (bmpFlip (toInt32 (read32at f 22)))
              (clipExtent x p.width (toInt32 (read32at f 18))).toNat
              (clipExtent y p.height (bmpAbsH (toInt32 (read32at f 22)))).toNat 0
              ⟨34, List.replicate 60 0, 60⟩ []] at hmem
          have hb := mem_refCoordsFrom _ _ _ _ hmem
          exact hout t.1 t.2.1 (by omega) (by omega) h1 h2
        · rfl
      · rfl
    · rfl

/-- Witness for C6 at a concrete input: a 9×9 bitmap decoded into the
8×8 framebuffer with a spare 9th backing byte; that byte (index 8,
outside every clipped pixel's byte) keeps its value. -/
theorem c6_clipping_frame_witness :
    (bmpDraw (some c6WitFile) c6WitFb 0 0).paint.image.getD 8 0 =
      c6WitFb.image.getD 8 0 := by
  apply c6_clipping_frame c6WitFile c6WitFb 0 0 8 (by decide) (by decide)
  intro r c h1 h2 h3 h4
  have e2 : (clipExtent 0 c6WitFb.height (bmpAbsH (toInt32 (read32at c6WitFile 22)))).toNat = 8 := by
    decide
  rw [e2] at h1
  have h3w : r < 8 := by simpa [c6WitFb] using h3
  have h4w : c < 8 := by simpa [c6WitFb] using h4
  show (r + c * c6WitFb.width) / 8 ≠ 8
  have : c6WitFb.width = 8 := by decide
  rw [this]
  omega

theorem chunkAt_getD (f : List Nat) (pos i : Nat) (h : i < 60) :
    (chunkAt f pos).getD i 0 = byteAt f (pos + i) := by
  unfold chunkAt
  rw [List.getD_eq_getElem?_getD, List.getElem?_map, List.getElem?_range h]
  rfl

theorem pushColours_append (r : Nat) :
    ∀ (l1 l2 : List Nat) (a : Nat),
    pushColours r a (l1 ++ l2) = pushColours r a l1 ++ pushColours r (a + l1.length) l2 := by
  intro l1
  induction l1 with
  | nil => intro l2 a; simp [pushColours]
  | cons v rest ih =>
    intro l2 a
    simp only [List.cons_append, pushColours, List.length_cons]
    rw [show rest.append l2 = rest ++ l2 from rfl, ih l2 (a + 1)]
    rw [show a + 1 + rest.length = a + (rest.length + 1) from by omega]

theorem colStep_sync (f : List Nat) (r w P : Nat) (hP : P + 3 * w ≤ f.length)
    (c : Nat) (hc : c < w) (st : RdState) (lcd : List Nat) (ws ws₀ : List Write)
    (h1 : lcd.length ≤ c)
    (h2 : ws ++ pushColours r (c - lcd.length) lcd = ws₀ ++ refRowWrites f P r c)
    (h3 : if c % 20 = 0 then st.buffidx = 60 ∧ st.filePos = min (P + 3 * c) f.length
      else st.buffidx = 3 * (c % 20) ∧ st.buf = chunkAt f (P + 60 * (c / 20)) ∧
        st.filePos = min (P + 60 * (c / 20) + 60) f.length) :
    (colStep f r c st lcd ws).2.1.length ≤ c + 1 ∧
    ((colStep f r c st lcd ws).2.2 ++
      pushColours r ((c + 1) - (colStep f r c st lcd ws).2.1.length)
        (colStep f r c st lcd ws).2.1 = ws₀ ++ refRowWrites f P r (c + 1)) ∧
    (if (c + 1) % 20 = 0 then (colStep f r c st lcd ws).1.buffidx = 60 ∧
        (colStep f r c st lcd ws).1.filePos = min (P + 3 * (c + 1)) f.length
      else (colStep f r c st lcd ws).1.buffidx = 3 * ((c + 1) % 20) ∧
        (colStep f r c st lcd ws).1.buf = chunkAt f (P + 60 * ((c + 1) / 20)) ∧
        (colStep f r c st lcd ws).1.filePos =
          min (P + 60 * ((c + 1) / 20) + 60) f.length) := by
  have hone : ∀ v : Nat, pushColours r c [v] = [(r, c, if v ≠ 0 then WHITE else BLACK)] :=
    fun v => rfl
  have hrw : ∀ χ : Nat × Nat × Nat, (ws ++ pushColours r (c - lcd.length) lcd) ++ [χ] =
      ws₀ ++ (refRowWrites f P r c ++ [χ]) := by
    intro χ
    rw [h2, List.append_assoc]
  by_cases hc20 : c % 20 = 0
  · rw [if_pos hc20] at h3
    have hfp : st.filePos = P + 3 * c := by
      rw [h3.2]
      omega
    simp only [colStep, if_pos (le_of_eq h3.1.symm), pixelRead, List.nil_append,
      List.length_cons, List.length_nil]
    have hb0 : (chunkAt f st.filePos).getD 0 0 = byteAt f (P + 3 * c) := by
      rw [hfp, chunkAt_getD f _ 0 (by omega), Nat.add_zero]
    have hb1 : (chunkAt f st.filePos).getD (0 + 1) 0 = byteAt f (P + 3 * c + 1) := by
      rw [hfp, chunkAt_getD f _ 1 (by omega)]
    have hb2 : (chunkAt f st.filePos).getD (0 + 2) 0 = byteAt f (P + 3 * c + 2) := by
      rw [hfp, chunkAt_getD f _ 2 (by omega)]
    rw [hb0, hb1, hb2]
    refine ⟨by omega, ?_, ?_⟩
    · rw [show c + 1 - (0 + 1) = c from by omega]
      rw [hone]
      rw [show (refRowWrites f P r (c + 1)) =
        refRowWrites f P r c ++
          [(r, c, if refPixVal f P c ≠ 0 then WHITE else BLACK)] from rfl]
      rw [show bmpPixelValue (byteAt f (P + 3 * c + 2)) (byteAt f (P + 3 * c + 1))
        (byteAt f (P + 3 * c)) = refPixVal f P c from rfl]
      exact hrw _
    · rw [if_neg (by omega : ¬ (c + 1) % 20 = 0)]
      refine ⟨by omega, ?_, ?_⟩
      · rw [hfp]
        rw [show P + 60 * ((c + 1) / 20) = P + 3 * c from by omega]
      · rw [hfp]
        rw [show P + 60 * ((c + 1) / 20) + 60 = P + 3 * c + 60 from by omega]
  · rw [if_neg hc20] at h3
    obtain ⟨hbi, hbuf, hfp⟩ := h3
    have hlt : ¬ 60 ≤ st.buffidx := by omega
    simp only [colStep, if_neg hlt, pixelRead, List.length_append, List.length_cons,
      List.length_nil]
    have hb0 : st.buf.getD st.buffidx 0 = byteAt f (P + 3 * c) := by
      rw [hbuf, hbi, chunkAt_getD f _ _ (by omega)]
      rw [show P + 60 * (c / 20) + 3 * (c % 20) = P + 3 * c from by omega]
    have hb1 : st.buf.getD (st.buffidx + 1) 0 = byteAt f (P + 3 * c + 1) := by
      rw [hbuf, hbi, chunkAt_getD f _ _ (by omega)]
      rw [show P + 60 * (c / 20) + (3 * (c % 20) + 1) = P + 3 * c + 1 from by omega]
    have hb2 : st.buf.getD (st.buffidx + 2) 0 = byteAt f (P + 3 * c + 2) := by
      rw [hbuf, hbi, chunkAt_getD f _ _ (by omega)]
      rw [show P + 60 * (c / 20) + (3 * (c % 20) + 2) = P + 3 * c + 2 from by omega]
    rw [hb0, hb1, hb2]
    refine ⟨by omega, ?_, ?_⟩
    · rw [show c + 1 - (lcd.length + (0 + 1)) = c - lcd.length from by omega]
      rw [pushColours_append r lcd [bmpPixelValue (byteAt f (P + 3 * c + 2))
        (byteAt f (P + 3 * c + 1)) (byteAt f (P + 3 * c))] (c - lcd.length)]
      rw [show c - lcd.length + lcd.length = c from by omega]
      rw [hone]
      rw [show (refRowWrites f P r (c + 1)) =
        refRowWrites f P r c ++
          [(r, c, if refPixVal f P c ≠ 0 then WHITE else BLACK)] from rfl]
      rw [show bmpPixelValue (byteAt f (P + 3 * c + 2)) (byteAt f (P + 3 * c + 1))
        (byteAt f (P + 3 * c)) = refPixVal f P c from rfl]
      rw [← List.append_assoc]
      exact hrw _
    · by_cases hc1 : (c + 1) % 20 = 0
      · rw [if_pos hc1]
        refine ⟨by omega, ?_⟩
        rw [hfp]
        rw [show P + 60 * (c / 20) + 60 = P + 3 * (c + 1) from by omega]
      · rw [if_neg hc1]
        refine ⟨by omega, ?_, ?_⟩
        · rw [hbuf]
          rw [show P + 60 * ((c + 1) / 20) = P + 60 * (c / 20) from by omega]
        · rw [hfp]
          rw [show P + 60 * ((c + 1) / 20) + 60 = P + 60 * (c / 20) + 60 from by omega]

theorem colLoop_sync (f : List Nat) (r w P : Nat) (hP : P + 3 * w ≤ f.length) :
    ∀ (n c : Nat) (st : RdState) (lcd : List Nat) (ws ws₀ : List Write),
    c + n = w →
    lcd.length ≤ c →
    ws ++ pushColours r (c - lcd.length) lcd = ws₀ ++ refRowWrites f P r c →
    (if c % 20 = 0 then st.buffidx = 60 ∧ st.filePos = min (P + 3 * c) f.length
      else st.buffidx = 3 * (c % 20) ∧ st.buf = chunkAt f (P + 60 * (c / 20)) ∧
        st.filePos = min (P + 60 * (c / 20) + 60) f.length) →
    ((colLoop f r c n st lcd ws).2.2 ++
        pushColours r (w - (colLoop f r c n st lcd ws).2.1.length)
          (colLoop f r c n st lcd ws).2.1 =
      ws₀ ++ refRowWrites f P r w) ∧
    (if w % 20 = 0 then (colLoop f r c n st lcd ws).1.buffidx = 60 ∧
        (colLoop f r c n st lcd ws).1.filePos = min (P + 3 * w) f.length
      else (colLoop f r c n st lcd ws).1.buffidx = 3 * (w % 20) ∧
        (colLoop f r c n st lcd ws).1.buf = chunkAt f (P + 60 * (w / 20)) ∧
        (colLoop f r c n st lcd ws).1.filePos =
          min (P + 60 * (w / 20) + 60) f.length) := by
  intro n
  induction n with
  | zero =>
    intro c st lcd ws ws₀ hcw h1 h2 h3
    have hc : c = w := by omega
    subst hc
    simp only [colLoop]
    exact ⟨h2, h3⟩
  | succ n ih =>
    intro c st lcd ws ws₀ hcw h1 h2 h3
    have hc : c < w := by omega
    have hs := colStep_sync f r w P hP c hc st lcd ws ws₀ h1 h2 h3
    have h := ih (c + 1) (colStep f r c st lcd ws).1 (colStep f r c st lcd ws).2.1
      (colStep f r c st lcd ws).2.2 ws₀ (by omega) hs.1 hs.2.1 hs.2.2
    simp only [colLoop]
    exact h

theorem rowStep_sync (f : List Nat) (imgoff rowSize H w : Nat)
    (hw : 1 ≤ w) (h3w : 3 * w ≤ rowSize) (hlen : imgoff + H * rowSize ≤ f.length)
    (r : Nat) (hr : r < H) (st : RdState) (ws : List Write)
    (hentry : st.buffidx = 60 ∨ st.filePos ≠ rowPos true imgoff rowSize H r) :
    (rowStep f imgoff rowSize H true w r st ws).2 =
      ws ++ refRowWrites f (rowPos true imgoff rowSize H r) r w ∧
    rowPos true imgoff rowSize H r + 3 ≤
      (rowStep f imgoff rowSize H true w r st ws).1.filePos := by
  have hpos : rowPos true imgoff rowSize H r = imgoff + (H - 1 - r) * rowSize := rfl
  have hP : rowPos true imgoff rowSize H r + 3 * w ≤ f.length := by
    have e1 : (H - 1 - r) + 1 ≤ H := by omega
    have e2 : ((H - 1 - r) + 1) * rowSize ≤ H * rowSize := Nat.mul_le_mul_right _ e1
    have e3 : ((H - 1 - r) + 1) * rowSize = (H - 1 - r) * rowSize + rowSize := by ring
    omega
  unfold rowStep rowSeek
  by_cases hseek : st.filePos ≠ rowPos true imgoff rowSize H r
  · rw [if_pos hseek]
    have h := colLoop_sync f r w (rowPos true imgoff rowSize H r) hP w 0
      ⟨rowPos true imgoff rowSize H r, st.buf, 60⟩ [] ws ws (by omega) (by simp)
      (by simp [pushColours, refRowWrites])
      (by
        rw [if_pos (by omega : (0 : Nat) % 20 = 0)]
        exact ⟨rfl, by show rowPos true imgoff rowSize H r = _; omega⟩)
    refine ⟨h.1, ?_⟩
    have h2 := h.2
    show rowPos true imgoff rowSize H r + 3 ≤
      (colLoop f r 0 w ⟨rowPos true imgoff rowSize H r, st.buf, 60⟩ [] ws).1.filePos
    by_cases hw20 : w % 20 = 0
    · rw [if_pos hw20] at h2
      have := h2.2
      omega
    · rw [if_neg hw20] at h2
      have := h2.2.2
      omega
  · rw [if_neg hseek]
    have hfp : st.filePos = rowPos true imgoff rowSize H r := by omega
    have hbi : st.buffidx = 60 := by
      rcases hentry with h | h
      · exact h
      · exact absurd hfp h
    have h := colLoop_sync f r w (rowPos true imgoff rowSize H r) hP w 0
      st [] ws ws (by omega) (by simp)
      (by simp [pushColours, refRowWrites])
      (by
        rw [if_pos (by omega : (0 : Nat) % 20 = 0)]
        exact ⟨hbi, by rw [hfp]; show rowPos true imgoff rowSize H r = _; omega⟩)
    refine ⟨h.1, ?_⟩
    have h2 := h.2
    show rowPos true imgoff rowSize H r + 3 ≤
      (colLoop f r 0 w st [] ws).1.filePos
    by_cases hw20 : w % 20 = 0
    · rw [if_pos hw20] at h2
      have := h2.2
      omega
    · rw [if_neg hw20] at h2
      have := h2.2.2
      omega

theorem rowLoop_sync (f : List Nat) (imgoff rowSize H w : Nat)
    (hw : 1 ≤ w) (h3w : 3 * w ≤ rowSize) (hlen : imgoff + H * rowSize ≤ f.length) :
    ∀ (n r : Nat) (st : RdState) (ws : List Write), r + n ≤ H →
    (st.buffidx = 60 ∨ st.filePos ≠ rowPos true imgoff rowSize H r) →
    (rowLoop f imgoff rowSize H true w r n (st, ws)).2 =
      ws ++ refWritesFrom f imgoff rowSize H true w r n := by
  intro n
  induction n with
  | zero => intro r st ws _ _; simp [rowLoop, refWritesFrom]
  | succ n ih =>
    intro r st ws hrn hentry
    have hr : r < H := by omega
    have hrs := rowStep_sync f imgoff rowSize H w hw h3w hlen r hr st ws hentry
    have hnext : (rowStep f imgoff rowSize H true w r st ws).1.buffidx = 60 ∨
        (rowStep f imgoff rowSize H true w r st ws).1.filePos ≠
          rowPos true imgoff rowSize H (r + 1) := by
    -- the next row offset is at most the current one, and the file
    -- position after a row is strictly past the current offset
      right
      have hmono : rowPos true imgoff rowSize H (r + 1) ≤
          rowPos true imgoff rowSize H r := by
        show imgoff + (H - 1 - (r + 1)) * rowSize ≤ imgoff + (H - 1 - r) * rowSize
        have := Nat.mul_le_mul_right rowSize (show H - 1 - (r + 1) ≤ H - 1 - r by omega)
        omega
      have := hrs.2
      omega
    have h := ih (r + 1) (rowStep f imgoff rowSize H true w r st ws).1
      (rowStep f imgoff rowSize H true w r st ws).2 (by omega) hnext
    simp only [rowLoop]
    rw [show (rowStep f imgoff rowSize H true w r st ws) =
      ((rowStep f imgoff rowSize H true w r st ws).1,
        (rowStep f imgoff rowSize H true w r st ws).2) from rfl] at h ⊢
    rw [h, hrs.1]
    simp [refWritesFrom, List.append_assoc]

theorem clipExtent_pos (off : Int) (dim : Nat) (v : Int)
    (hoff : ¬ (dim : Int) ≤ off) (hv : 1 ≤ v) : 1 ≤ (clipExtent off dim v).toNat := by
  unfold clipExtent
  split <;> omega

theorem clipExtent_le (off : Int) (dim : Nat) (v : Int) :
    (clipExtent off dim v).toNat ≤ v.toNat := by
  unfold clipExtent
  split <;> omega

theorem rowSizeOf_spec (bw : Int) (h0 : 0 ≤ bw) (hov : 3 * bw + 3 < 4294967296) :
    rowSizeOf bw = (bw.toNat * 3 + 3) / 4 * 4 ∧ 3 * bw.toNat ≤ rowSizeOf bw := by
  have h2 : ((bw * 3 + 3) % 4294967296).toNat = bw.toNat * 3 + 3 := by
    rw [Int.emod_eq_of_lt (by omega) (by omega)]
    omega
  have heq : rowSizeOf bw = (bw.toNat * 3 + 3) / 4 * 4 := by
    unfold rowSizeOf
    rw [h2]
    refine land_mask32 _ ?_
    have h3 : (bw.toNat : Int) = bw := Int.toNat_of_nonneg h0
    omega
  refine ⟨heq, ?_⟩
  rw [heq]
  omega

set_option maxRecDepth 100000 in
set_option maxHeartbeats 4000000 in
/-- C7 counterexample: a well-formed top-down bitmap (width 19, header
height -2, pixel data complete at offset 54) decoded into a 19×19
framebuffer.  After row 0 consumes 57 of the 60 buffered bytes, the
file position (114) happens to equal row 1's offset, so no seek occurs
and the buffered decode serves the 3 stale padding bytes of row 0 as
row 1's first pixel: it writes BLACK at (1,0) (and the whole row
shifted), while the reference decode that addresses each row directly
reads bytes 114-116 (a white pixel) and writes WHITE at (1,0). -/
theorem c7_seek_avoidance_counterexample :
    (bmpDraw (some c7File) c7Fb 0 0).writes ≠
      refWritesFrom c7File 54 60 2 false 19 0 2 := by
  decide

/-- C7 (amended): for every well-formed bottom-up bitmap input (header
height non-negative, width at least 1 with non-overflowing stride
arithmetic, and all pixel rows present in the file), the buffered decode
that reads 60-byte chunks and seeks only when the file position differs
from the next row offset produces exactly the same sequence of
framebuffer pixel writes as a reference decode that addresses every
pixel of every row directly at its file offset.  (For top-down inputs
the equivalence can fail: see the counterexample.) -/
theorem c7_seek_avoidance_bottom_up (f : List Nat) (p : Paint) (x y : Int)
    (hx : ¬ (p.width : Int) ≤ x) (hy : ¬ (p.height : Int) ≤ y)
    (hsig : read16at f 0 = 0x4D42) (hpl : read16at f 26 = 1)
    (hdep : read16at f 28 = 24) (hcomp : read32at f 30 = 0)
    (hflip : 0 ≤ toInt32 (read32at f 22))
    (hbw : 1 ≤ toInt32 (read32at f 18))
    (hov : 3 * toInt32 (read32at f 18) + 3 < 4294967296)
    (hlen : read32at f 10 +
      (toInt32 (read32at f 22)).toNat * rowSizeOf (toInt32 (read32at f 18)) ≤
        f.length) :
    (bmpDraw (some f) p x y).writes =
      refWritesFrom f (read32at f 10) (rowSizeOf (toInt32 (read32at f 18)))
        (toInt32 (read32at f 22)).toNat true
        (clipExtent x p.width (toInt32 (read32at f 18))).toNat 0
        (clipExtent y p.height (toInt32 (read32at f 22))).toNat := by
  have habs : bmpAbsH (toInt32 (read32at f 22)) = toInt32 (read32at f 22) := by
    unfold bmpAbsH
    rw [if_neg (by omega)]
  have hfl : bmpFlip (toInt32 (read32at f 22)) = true := by
    unfold bmpFlip
    simp [hflip]
  simp only [bmpDraw]
  rw [if_neg (show ¬ ((p.width : Int) ≤ x ∨ (p.height : Int) ≤ y) by omega)]
  simp only [if_pos hsig, if_pos hpl, if_pos (show read16at f 28 = 24 ∧
    read32at f 30 = 0 from ⟨hdep, hcomp⟩)]
  show bmpDecodeWrites f p x y = _
  unfold bmpDecodeWrites
  rw [habs, hfl]
  have hrs := rowSizeOf_spec (toInt32 (read32at f 18)) (by omega) hov
  have h := rowLoop_sync f (read32at f 10) (rowSizeOf (toInt32 (read32at f 18)))
    (toInt32 (read32at f 22)).toNat
    (clipExtent x p.width (toInt32 (read32at f 18))).toNat
    (clipExtent_pos x p.width _ hx hbw)
    (by
      have h1 := clipExtent_le x p.width (toInt32 (read32at f 18))
      omega)
    hlen
    (clipExtent y p.height (toInt32 (read32at f 22))).toNat 0
    ⟨34, List.replicate 60 0, 60⟩ []
    (by
      have h1 := clipExtent_le y p.height (toInt32 (read32at f 22))
      omega)
    (Or.inl rfl)
  simpa using h

/-- Witness for C7 at a concrete input: a complete bottom-up 1×1 bitmap
decoded into an 8×8 framebuffer matches the reference decode. -/
theorem c7_seek_avoidance_bottom_up_witness :
    (bmpDraw (some c7WitFile) c7WitFb 0 0).writes =
      refWritesFrom c7WitFile 54 4 1 true 1 0 1 := by
  have h := c7_seek_avoidance_bottom_up c7WitFile c7WitFb 0 0 (by decide) (by decide)
    (by decide) (by decide) (by decide) (by decide) (by decide) (by decide)
    (by decide) (by decide)
  have e1 : read32at c7WitFile 10 = 54 := by decide
  have e2 : rowSizeOf (toInt32 (read32at c7WitFile 18)) = 4 := by decide
  have e3 : (toInt32 (read32at c7WitFile 22)).toNat = 1 := by decide
  have e4 : (clipExtent 0 c7WitFb.width (toInt32 (read32at c7WitFile 18))).toNat = 1 := by
    decide
  have e5 : (clipExtent 0 c7WitFb.height (toInt32 (read32at c7WitFile 22))).toNat = 1 := by
    decide
  rw [e1, e2, e3, e4, e5] at h
  exact h

set_option maxRecDepth 100000 in
set_option maxHeartbeats 4000000 in
/-- C1 counterexample: an 8×8 framebuffer, all white except the pixel at
x=1, y=0, is encoded by the snapshot encoder and decoded back into a
fresh all-white 8×8 framebuffer; the result differs from the original
bit pattern (the black pixel comes back at x=0, y=1 — transposed). -/
theorem c1_roundtrip_counterexample :
    (bmpDraw (some (snapshot c1Fb)) (freshWhite 8 8) 0 0).paint.image ≠ c1Fb.image := by
  decide

theorem snapRowPix_length (p : Paint) (row : Nat) :
    ∀ c, (snapRowPix p row c).length = 3 * c := by
  intro c
  induction c with
  | zero => rfl
  | succ c ih =>
    simp only [snapRowPix, List.length_append, ih]
    split <;> simp <;> omega

theorem snapRow_length (p : Paint) (row : Nat) (h4 : p.width % 4 = 0) :
    (snapRow p row).length = 3 * p.width := by
  unfold snapRow
  rw [if_neg (by omega)]
  rw [List.append_nil, snapRowPix_length]

theorem snapRowsDown_length (p : Paint) (h4 : p.width % 4 = 0) :
    ∀ n, (snapRowsDown p n).length = n * (3 * p.width) := by
  intro n
  induction n with
  | zero => simp [snapRowsDown]
  | succ n ih =>
    simp only [snapRowsDown, List.length_append, ih, snapRow_length p n h4]
    ring

theorem snapshot_length (p : Paint) (h4 : p.width % 4 = 0) :
    (snapshot p).length = 54 + p.height * (3 * p.width) := by
  unfold snapshot
  rw [List.length_append, List.length_append, snapRowsDown_length p h4]
  have h1 : (bmpfileheader (54 + 3 * p.width * p.height)).length = 14 := rfl
  have h2 : (bmpinfoheader p.width p.height).length = 40 := by
    unfold bmpinfoheader
    rw [List.length_append, List.length_replicate]
    rfl
  omega

theorem snapRowPix_getD (p : Paint) (row : Nat) :
    ∀ (cnt c t : Nat), c < cnt → t < 3 →
    (snapRowPix p row cnt).getD (3 * c + t) 0 =
      (if (p.image.getD ((row * p.width + c) / 8) 0) &&& (0x80 >>> (c % 8)) ≠ 0
        then 0xFF else 0) := by
  intro cnt
  induction cnt with
  | zero => intro c t hc; omega
  | succ cnt ih =>
    intro c t hc ht
    simp only [snapRowPix]
    by_cases hcc : c < cnt
    · rw [List.getD_append _ _ _ _ (by
        rw [snapRowPix_length]
        omega)]
      exact ih c t hcc ht
    · have hce : c = cnt := by omega
      subst hce
      rw [List.getD_append_right _ _ _ _ (by
        rw [snapRowPix_length]
        omega)]
      rw [snapRowPix_length]
      rw [show 3 * c + t - 3 * c = t from by omega]
      split
      · interval_cases t <;> rfl
      · interval_cases t <;> rfl

theorem snapRow_getD (p : Paint) (row : Nat) (h4 : p.width % 4 = 0)
    (c t : Nat) (hc : c < p.width) (ht : t < 3) :
    (snapRow p row).getD (3 * c + t) 0 =
      (if (p.image.getD ((row * p.width + c) / 8) 0) &&& (0x80 >>> (c % 8)) ≠ 0
        then 0xFF else 0) := by
  unfold snapRow
  rw [if_neg (by omega), List.append_nil]
  exact snapRowPix_getD p row p.width c t hc ht

theorem snapRowsDown_getD (p : Paint) (h4 : p.width % 4 = 0) :
    ∀ (hcount s j : Nat), s < hcount → j < 3 * p.width →
    (snapRowsDown p hcount).getD (s * (3 * p.width) + j) 0 =
      (snapRow p (hcount - 1 - s)).getD j 0 := by
  intro hcount
  induction hcount with
  | zero => intro s j hs; omega
  | succ hcount ih =>
    intro s j hs hj
    simp only [snapRowsDown]
    by_cases hs0 : s = 0
    · subst hs0
      rw [List.getD_append _ _ _ _ (by
        rw [snapRow_length p hcount h4]
        omega)]
      rw [show hcount + 1 - 1 - 0 = hcount from by omega]
      congr 1
      omega
    · have h1 : s * (3 * p.width) = (s - 1) * (3 * p.width) + 3 * p.width := by
        calc s * (3 * p.width) = ((s - 1) + 1) * (3 * p.width) := by
              rw [show (s - 1) + 1 = s from by omega]
          _ = (s - 1) * (3 * p.width) + 3 * p.width := by ring
      rw [List.getD_append_right _ _ _ _ (by
        rw [snapRow_length p hcount h4, h1]
        omega)]
      rw [snapRow_length p hcount h4]
      rw [show s * (3 * p.width) + j - 3 * p.width = (s - 1) * (3 * p.width) + j
        from by rw [h1]; omega]
      rw [ih (s - 1) j (by omega) hj]
      rw [show hcount - 1 - (s - 1) = hcount + 1 - 1 - s from by omega]

theorem snapshot_sig (p : Paint) : read16at (snapshot p) 0 = 0x4D42 := rfl

theorem snapshot_imgoff (p : Paint) : read32at (snapshot p) 10 = 54 := rfl

theorem snapshot_planes (p : Paint) : read16at (snapshot p) 26 = 1 := rfl

theorem snapshot_depth (p : Paint) : read16at (snapshot p) 28 = 24 := rfl

theorem snapshot_compression (p : Paint) : read32at (snapshot p) 30 = 0 := rfl

theorem snapshot_width_read (p : Paint) (hw : p.width ≤ 200) :
    read32at (snapshot p) 18 = p.width := by
  have b0 : byteAt (snapshot p) 18 = p.width % 256 % 256 := rfl
  have b1 : byteAt (snapshot p) 19 = p.width / 256 % 256 % 256 := rfl
  have b2 : byteAt (snapshot p) 20 = p.width / 65536 % 256 % 256 := rfl
  have b3 : byteAt (snapshot p) 21 = p.width / 16777216 % 256 % 256 := rfl
  unfold read32at
  rw [show (18 : Nat) + 1 = 19 from rfl, show (18 : Nat) + 2 = 20 from rfl,
    show (18 : Nat) + 3 = 21 from rfl, b0, b1, b2, b3]
  omega

theorem snapshot_height_read (p : Paint) (hh : p.height ≤ 200) :
    read32at (snapshot p) 22 = p.height := by
  have b0 : byteAt (snapshot p) 22 = p.height % 256 % 256 := rfl
  have b1 : byteAt (snapshot p) 23 = p.height / 256 % 256 % 256 := rfl
  have b2 : byteAt (snapshot p) 24 = p.height / 65536 % 256 % 256 := rfl
  have b3 : byteAt (snapshot p) 25 = p.height / 16777216 % 256 % 256 := rfl
  unfold read32at
  rw [show (22 : Nat) + 1 = 23 from rfl, show (22 : Nat) + 2 = 24 from rfl,
    show (22 : Nat) + 3 = 25 from rfl, b0, b1, b2, b3]
  omega

theorem snapshot_getD_pix (p : Paint) (k : Nat) :
    (snapshot p).getD (54 + k) 0 = (snapRowsDown p p.height).getD k 0 := by
  unfold snapshot
  rw [List.getD_append_right _ _ _ _ (by
    rw [List.length_append]
    have h1 : (bmpfileheader (54 + 3 * p.width * p.height)).length = 14 := rfl
    have h2 : (bmpinfoheader p.width p.height).length = 40 := by
      unfold bmpinfoheader
      rw [List.length_append, List.length_replicate]
      rfl
    omega)]
  congr 1
  rw [List.length_append]
  have h1 : (bmpfileheader (54 + 3 * p.width * p.height)).length = 14 := rfl
  have h2 : (bmpinfoheader p.width p.height).length = 40 := by
    unfold bmpinfoheader
    rw [List.length_append, List.length_replicate]
    rfl
  omega

theorem snapshot_pixel_byte (p : Paint) (h4 : p.width % 4 = 0) (s c t : Nat)
    (hs : s < p.height) (hc : c < p.width) (ht : t < 3) :
    byteAt (snapshot p) (54 + (s * (3 * p.width) + (3 * c + t))) =
      (if (p.image.getD (((p.height - 1 - s) * p.width + c) / 8) 0) &&&
          (0x80 >>> (c % 8)) ≠ 0 then 255 else 0) := by
  unfold byteAt
  rw [snapshot_getD_pix]
  rw [snapRowsDown_getD p h4 p.height s (3 * c + t) hs (by omega)]
  rw [snapRow_getD p (p.height - 1 - s) h4 c t hc ht]
  split <;> rfl

theorem bmpPixelValue_gray (v : Nat) : bmpPixelValue v v v = if v ≠ 0 then 1 else 0 := by
  unfold bmpPixelValue
  by_cases h : v = 0
  · subst h
    rfl
  · rw [if_pos (Or.inr h), if_pos h]

theorem applyWrites_append (a b : List Write) :
    ∀ p : Paint, applyWrites p (a ++ b) = applyWrites (applyWrites p a) b := by
  induction a with
  | nil => intro p; rfl
  | cons t rest ih =>
    intro p
    obtain ⟨xx, yy, cc⟩ := t
    simp only [List.cons_append, applyWrites]
    exact ih _

theorem applyWrites_width (ws : List Write) :
    ∀ p : Paint, (applyWrites p ws).width = p.width := by
  induction ws with
  | nil => intro p; rfl
  | cons t rest ih =>
    intro p
    obtain ⟨xx, yy, cc⟩ := t
    simp only [applyWrites]
    rw [ih, DrawPixel_width]

theorem applyWrites_height (ws : List Write) :
    ∀ p : Paint, (applyWrites p ws).height = p.height := by
  induction ws with
  | nil => intro p; rfl
  | cons t rest ih =>
    intro p
    obtain ⟨xx, yy, cc⟩ := t
    simp only [applyWrites]
    rw [ih, DrawPixel_height]

theorem applyWrites_image_length (ws : List Write) :
    ∀ p : Paint, (applyWrites p ws).image.length = p.image.length := by
  induction ws with
  | nil => intro p; rfl
  | cons t rest ih =>
    intro p
    obtain ⟨xx, yy, cc⟩ := t
    simp only [applyWrites]
    rw [ih, DrawPixel_image_length]

theorem applyWrites_refRow_ne (f : List Nat) (pos r : Nat) :
    ∀ (w : Nat) (p : Paint) (X Y : Nat), X < p.width → Y < p.height →
    8 ∣ p.width → (r ≠ X ∨ w ≤ Y) →
    ((applyWrites p (refRowWrites f pos r w)).pixelSet X Y ↔ p.pixelSet X Y) := by
  intro w
  induction w with
  | zero => intro p X Y _ _ _ _; exact Iff.rfl
  | succ w ih =>
    intro p X Y hX hY h8 hcase
    show ((applyWrites p (refRowWrites f pos r w ++ _)).pixelSet X Y ↔ _)
    rw [applyWrites_append]
    simp only [applyWrites]
    rw [pixelSet_DrawPixel_ne _ r w _ X Y
      (by rw [applyWrites_width]; exact hX)
      (by rw [applyWrites_height]; exact hY)
      (by omega)
      (by rw [applyWrites_width]; exact Or.inl h8)]
    exact ih p X Y hX hY h8 (by omega)

theorem applyWrites_refRow_eq (f : List Nat) (pos r : Nat) :
    ∀ (w : Nat) (p : Paint) (X Y : Nat), X < p.width → Y < p.height →
    8 ∣ p.width → p.width * p.height ≤ 8 * p.image.length → r = X → Y < w →
    ((applyWrites p (refRowWrites f pos r w)).pixelSet X Y ↔ refPixVal f pos Y ≠ 0) := by
  intro w
  induction w with
  | zero => intro p X Y _ _ _ _ _ h; omega
  | succ w ih =>
    intro p X Y hX hY h8 hcap hr hYw
    show ((applyWrites p (refRowWrites f pos r w ++ _)).pixelSet X Y ↔ _)
    rw [applyWrites_append]
    simp only [applyWrites]
    by_cases hYe : Y = w
    · subst hYe
      subst hr
      rw [pixelSet_DrawPixel_self _ r Y _
        (by rw [applyWrites_width]; exact hX)
        (by rw [applyWrites_height]; exact hY)
        (by rw [applyWrites_width, applyWrites_height, applyWrites_image_length]
            exact hcap)]
      by_cases hv : refPixVal f pos Y ≠ 0
      · simp [hv, WHITE]
      · simp [hv, BLACK]
    · rw [pixelSet_DrawPixel_ne _ r w _ X Y
        (by rw [applyWrites_width]; exact hX)
        (by rw [applyWrites_height]; exact hY)
        (by omega)
        (by rw [applyWrites_width]; exact Or.inl h8)]
      exact ih p X Y hX hY h8 hcap hr (by omega)

theorem applyWrites_refFrom_lt (f : List Nat) (imgoff rowSize H : Nat) (flip : Bool)
    (w : Nat) :
    ∀ (n r0 : Nat) (p : Paint) (X Y : Nat), X < p.width → Y < p.height →
    8 ∣ p.width → X < r0 →
    ((applyWrites p (refWritesFrom f imgoff rowSize H flip w r0 n)).pixelSet X Y ↔
      p.pixelSet X Y) := by
  intro n
  induction n with
  | zero => intro r0 p X Y _ _ _ _; exact Iff.rfl
  | succ n ih =>
    intro r0 p X Y hX hY h8 hr
    show ((applyWrites p (refRowWrites _ _ _ _ ++ _)).pixelSet X Y ↔ _)
    rw [applyWrites_append]
    rw [ih (r0 + 1) _ X Y
      (by rw [applyWrites_width]; exact hX)
      (by rw [applyWrites_height]; exact hY)
      (by rw [applyWrites_width]; exact h8)
      (by omega)]
    exact applyWrites_refRow_ne f _ r0 w p X Y hX hY h8 (Or.inl (by omega))

theorem applyWrites_refFrom_pixel (f : List Nat) (imgoff rowSize H : Nat)
    (flip : Bool) (w : Nat) :
    ∀ (n r0 : Nat) (p : Paint) (X Y : Nat), r0 ≤ X → X < r0 + n →
    X < p.width → Y < p.height → Y < w →
    8 ∣ p.width → p.width * p.height ≤ 8 * p.image.length →
    ((applyWrites p (refWritesFrom f imgoff rowSize H flip w r0 n)).pixelSet X Y ↔
      refPixVal f (rowPos flip imgoff rowSize H X) Y ≠ 0) := by
  intro n
  induction n with
  | zero => intro r0 p X Y h1 h2; omega
  | succ n ih =>
    intro r0 p X Y h1 h2 hX hY hYw h8 hcap
    show ((applyWrites p (refRowWrites _ _ _ _ ++ _)).pixelSet X Y ↔ _)
    rw [applyWrites_append]
    by_cases hXr : X = r0
    · rw [applyWrites_refFrom_lt f imgoff rowSize H flip w n (r0 + 1) _ X Y
        (by rw [applyWrites_width]; exact hX)
        (by rw [applyWrites_height]; exact hY)
        (by rw [applyWrites_width]; exact h8)
        (by omega)]
      subst hXr
      exact applyWrites_refRow_eq f _ X w p X Y hX hY h8 hcap rfl hYw
    · exact (by
        rw [ih (r0 + 1) _ X Y (by omega) (by omega)
          (by rw [applyWrites_width]; exact hX)
          (by rw [applyWrites_height]; exact hY) hYw
          (by rw [applyWrites_width]; exact h8)
          (by rw [applyWrites_width, applyWrites_height, applyWrites_image_length]
              exact hcap)])

/-- C1 (amended): the black/white round trip is lossless only up to a
row/column transposition.  For a square framebuffer (width = height = n,
n a multiple of 8, fitting the panel bound n ≤ 200 and the backing
capacity), encoding with the snapshot encoder and decoding the produced
file with the bitmap codec into a fresh all-white framebuffer of the
same dimensions reproduces the original pattern transposed: decoded
pixel (X, Y) equals original pixel (Y, X).  The exact round trip of the
claim fails (see the counterexample) because `pushColours` writes
`DrawPixel(row, col, ...)` with row as x and column as y. -/
theorem c1_roundtrip_transposed (fb : Paint) (n : Nat)
    (hw : fb.width = n) (hh : fb.height = n) (h8 : 8 ∣ n) (hn : n ≤ 200)
    (hcap : n * n ≤ 8 * fb.image.length)
    (X Y : Nat) (hX : X < n) (hY : Y < n) :
    ((bmpDraw (some (snapshot fb)) (freshWhite n fb.image.length) 0 0).paint.pixelSet X Y
      ↔ fb.pixelSet Y X) := by
  have hn1 : 1 ≤ n := by omega
  have h4 : n % 4 = 0 := by omega
  have h4w : fb.width % 4 = 0 := by omega
  have hw200 : fb.width ≤ 200 := by omega
  have hh200 : fb.height ≤ 200 := by omega
  have hfresh : freshWhite n fb.image.length =
      ⟨n, n, List.replicate fb.image.length 255⟩ := by
    unfold freshWhite Paint.Clear
    simp [List.map_replicate, WHITE]
  have h18 : read32at (snapshot fb) 18 = n := by
    rw [snapshot_width_read fb hw200]
    exact hw
  have h22 : read32at (snapshot fb) 22 = n := by
    rw [snapshot_height_read fb hh200]
    exact hh
  have hti18 : toInt32 (read32at (snapshot fb) 18) = (n : Int) := by
    rw [h18]
    unfold toInt32
    rw [if_pos (by omega)]
  have hti22 : toInt32 (read32at (snapshot fb) 22) = (n : Int) := by
    rw [h22]
    unfold toInt32
    rw [if_pos (by omega)]
  have habs : bmpAbsH (toInt32 (read32at (snapshot fb) 22)) = (n : Int) := by
    rw [hti22]
    unfold bmpAbsH
    rw [if_neg (by omega)]
  have hfl : bmpFlip (toInt32 (read32at (snapshot fb) 22)) = true := by
    rw [hti22]
    unfold bmpFlip
    simp
  have hclip : (clipExtent 0 n ((n : Nat) : Int)).toNat = n := by
    unfold clipExtent
    rw [if_neg (by omega)]
    omega
  have hNat : (((n : Nat) : Int)).toNat = n := rfl
  have hrs : rowSizeOf ((n : Nat) : Int) = 3 * n := by
    have h := rowSizeOf_spec ((n : Nat) : Int) (by omega) (by omega)
    rw [h.1, hNat]
    omega
  have hslen : (snapshot fb).length = 54 + n * (3 * n) := by
    rw [snapshot_length fb h4w, hw, hh]
  have hPw : ((⟨n, n, List.replicate fb.image.length 255⟩ : Paint)).width = n := rfl
  have hPh : ((⟨n, n, List.replicate fb.image.length 255⟩ : Paint)).height = n := rfl
  have hdec : bmpDecodeWrites (snapshot fb)
      (⟨n, n, List.replicate fb.image.length 255⟩ : Paint) 0 0 =
      refWritesFrom (snapshot fb) 54 (3 * n) n true n 0 n := by
    unfold bmpDecodeWrites
    rw [snapshot_imgoff]
    simp only [hPw, hPh]
    rw [hti18, habs, hfl, hrs, hNat, hclip]
    have h := rowLoop_sync (snapshot fb) 54 (3 * n) n n hn1 (le_refl (3 * n))
      (by omega) n 0 ⟨34, List.replicate 60 0, 60⟩ [] (by omega) (Or.inl rfl)
    simpa using h
  rw [hfresh]
  simp only [bmpDraw]
  rw [if_neg (show ¬ ((((⟨n, n, List.replicate fb.image.length 255⟩ : Paint)).width : Int) ≤ 0 ∨
    (((⟨n, n, List.replicate fb.image.length 255⟩ : Paint)).height : Int) ≤ 0) by
      rw [hPw, hPh]
      omega)]
  simp only [if_pos (snapshot_sig fb), if_pos (snapshot_planes fb),
    if_pos (show read16at (snapshot fb) 28 = 24 ∧ read32at (snapshot fb) 30 = 0 from
      ⟨snapshot_depth fb, snapshot_compression fb⟩)]
  show ((applyWrites (⟨n, n, List.replicate fb.image.length 255⟩ : Paint)
      (bmpDecodeWrites (snapshot fb)
        (⟨n, n, List.replicate fb.image.length 255⟩ : Paint) 0 0)).pixelSet X Y ↔ _)
  rw [hdec]
  rw [applyWrites_refFrom_pixel (snapshot fb) 54 (3 * n) n true n n 0
    (⟨n, n, List.replicate fb.image.length 255⟩ : Paint) X Y (Nat.zero_le _)
    (by omega) (by rw [hPw]; exact hX) (by rw [hPh]; exact hY) hY
    (by rw [hPw]; exact h8)
    (by rw [hPw, hPh]
        show n * n ≤ 8 * (List.replicate fb.image.length 255).length
        rw [List.length_replicate]
        exact hcap)]
  have hb : ∀ t, t < 3 →
      byteAt (snapshot fb) (54 + ((n - 1 - X) * (3 * n) + (3 * Y + t))) =
        (if (fb.image.getD ((X * n + Y) / 8) 0) &&& (0x80 >>> (Y % 8)) ≠ 0
          then 255 else 0) := by
    intro t ht
    have hs : n - 1 - X < fb.height := by omega
    have hc : Y < fb.width := by omega
    have h := snapshot_pixel_byte fb h4w (n - 1 - X) Y t hs hc ht
    rw [hw, hh] at h
    rw [show n - 1 - (n - 1 - X) = X from by omega] at h
    exact h
  have hpix : refPixVal (snapshot fb) (rowPos true 54 (3 * n) n X) Y =
      (if (fb.image.getD ((X * n + Y) / 8) 0) &&& (0x80 >>> (Y % 8)) ≠ 0
        then 1 else 0) := by
    unfold refPixVal
    rw [show rowPos true 54 (3 * n) n X = 54 + (n - 1 - X) * (3 * n) from rfl]
    rw [show 54 + (n - 1 - X) * (3 * n) + 3 * Y + 2 =
      54 + ((n - 1 - X) * (3 * n) + (3 * Y + 2)) from by omega]
    rw [show 54 + (n - 1 - X) * (3 * n) + 3 * Y + 1 =
      54 + ((n - 1 - X) * (3 * n) + (3 * Y + 1)) from by omega]
    rw [show 54 + (n - 1 - X) * (3 * n) + 3 * Y =
      54 + ((n - 1 - X) * (3 * n) + (3 * Y + 0)) from by omega]
    rw [hb 2 (by omega), hb 1 (by omega), hb 0 (by omega)]
    by_cases hbit : (fb.image.getD ((X * n + Y) / 8) 0) &&& (0x80 >>> (Y % 8)) ≠ 0
    · rw [if_pos hbit, if_pos hbit]
      rfl
    · rw [if_neg hbit, if_neg hbit]
      rfl
  rw [hpix]
  unfold Paint.pixelSet
  rw [hw]
  rw [show Y + X * n = X * n + Y from by omega]
  by_cases hbit : (fb.image.getD ((X * n + Y) / 8) 0) &&& (0x80 >>> (Y % 8)) ≠ 0
  · simp [hbit]
  · simp [hbit]

theorem c1_roundtrip_transposed_witness :
    ((bmpDraw (some (snapshot c1Fb)) (freshWhite 8 c1Fb.image.length) 0 0).paint.pixelSet 0 1
      ↔ c1Fb.pixelSet 1 0) :=
  c1_roundtrip_transposed c1Fb 8 rfl rfl (by decide) (by decide) (by decide)
    0 1 (by decide) (by decide)
